import Mathlib

/-!
Verification of the Hearth-AI backend job-orchestration core
(`src/backend/main.py`, `src/backend/services.py`) against its
natural-language specification.

The Python code is shallowly embedded:

* the external collaborators (Scraper, Auditor, Generator) are oracles
  passed as parameters (`Except` captures a raised exception, `Option`
  a `None` return);
* the background workers `process_listing_job` / `process_single_image_job`
  become pure functions producing the terminal job record together with
  the sequence of observable (pollable) job states: one snapshot per
  suspension point (`await` on the worker pool) plus the initial and the
  terminal state — in-between mutations are synchronous bursts that a
  poller can never interleave with;
* the on-demand `/generate-renovation` endpoint becomes a state
  transformer over the in-memory cache, also reporting how many times the
  Generator collaborator was invoked;
* progress values `int((idx / total) * 100)` are modelled as the natural
  floor `idx * 100 / total` (the reading §9 of the spec itself gives);
* the sha256-of-canonical-JSON cache key is modelled by the canonical key
  structure itself (the serialization is injective on it, so key equality
  is structure equality);
* numeric-cost bookkeeping in `services.py` (`estimated_cost_usd`
  regex parsing, cost capping) only rewrites cost fields, which no claim
  mentions; those rewrites are elided from the audit-payload model.
-/

/-! ### String helpers (Python `in`, `str.lower`, `str.replace`) -/

/-- `strStarts pat s`: `pat` is a prefix of `s` (character lists). -/
def strStarts : List Char → List Char → Bool
  | [], _ => true
  | _ :: _, [] => false
  | a :: as, b :: bs => a == b && strStarts as bs

/-- `hasInfix s pat`: `pat` occurs inside `s` (Python `pat in s`). -/
def hasInfix : List Char → List Char → Bool
  | s, pat =>
    strStarts pat s ||
      match s with
      | [] => false
      | _ :: t => hasInfix t pat

/-- Python `pat in s` on strings. -/
def containsSub (s pat : String) : Bool :=
  hasInfix s.toList pat.toList

/-- Python `str.lower` (ASCII-adequate for the literals the code checks). -/
def strLower (s : String) : String :=
  String.mk (s.toList.map Char.toLower)

/-- Python `str.replace(pat, rep)` on character lists: replace every
non-overlapping occurrence, left to right.  Guarded against `pat = []`
(the code only ever replaces non-empty literals). -/
def listReplace : List Char → List Char → List Char → List Char
  | [], _, _ => []
  | c :: rest, pat, rep =>
    if pat ≠ [] && strStarts pat (c :: rest) then
      rep ++ listReplace (rest.drop (pat.length - 1)) pat rep
    else
      c :: listReplace rest pat rep
termination_by s _ _ => s.length
decreasing_by
  · simp only [List.length_drop, List.length_cons]; omega
  · simp

/-- Python `str.replace` on strings. -/
def strReplace (s pat rep : String) : String :=
  String.mk (listReplace s.toList pat.toList rep.toList)

/-! ### Base64 artifact encoding (`base64.b64encode`, `main.py`) -/

def b64Alphabet : List Char :=
  "ABCDEFGHIJKLMNOPQRSTUVWXYZabcdefghijklmnopqrstuvwxyz0123456789+/".toList

def b64Char (n : Nat) : Char := b64Alphabet.getD n 'A'

/-- Standard base64 of a byte list (bytes as naturals, reduced mod 256). -/
def b64Chars : List Nat → List Char
  | [] => []
  | [a] =>
    let a := a % 256
    [b64Char (a / 4), b64Char (a % 4 * 16), '=', '=']
  | [a, b] =>
    let a := a % 256; let b := b % 256
    [b64Char (a / 4), b64Char (a % 4 * 16 + b / 16), b64Char (b % 16 * 4), '=']
  | a :: b :: c :: rest =>
    let a := a % 256; let b := b % 256; let c := c % 256
    b64Char (a / 4) :: b64Char (a % 4 * 16 + b / 16) ::
      b64Char (b % 16 * 4 + c / 64) :: b64Char (c % 64) :: b64Chars rest

def base64Encode (bs : List Nat) : String := String.mk (b64Chars bs)

/-- `f"data:image/jpeg;base64,{base64_encoded}"` (`main.py`). -/
def encodeArtifact (bs : List Nat) : String :=
  "data:image/jpeg;base64," ++ base64Encode bs

/-! ### Audit payload and its validation (`services.py`) -/

/-- The audit payload fields the orchestration core reads.  The numeric
cost fields (`estimated_cost_usd`) and pass-through metadata
(`compliance_note`, aliases) are elided: the code only rewrites them in
place and no claim mentions them. -/
structure AuditData where
  barrier_detected : String
  renovation_suggestion : String
  cost_estimate : String
  image_gen_prompt : String
  mask_prompt : String
  clear_mask : String
  clear_prompt : String
  build_mask : String
  build_prompt : String
deriving DecidableEq, Repr

/-- The "no barriers" test of `_validate_audit_response` (`services.py`). -/
def noBarrierDetected (a : AuditData) : Bool :=
  let b := strLower a.barrier_detected
  containsSub b "no accessibility barriers" || containsSub b "no barriers" ||
    containsSub b "already accessible"

/-- `_validate_audit_response` (`services.py`): when no barriers were
detected, every renovation field is forced to empty.  The
required-field check raising `ValueError` is part of the Auditor
oracle's error outcome; `setdefault` of optional fields is subsumed by
the payload structure being total. -/
def validateAuditResponse (a : AuditData) : AuditData :=
  if noBarrierDetected a then
    { a with renovation_suggestion := "", build_mask := "", build_prompt := "",
             mask_prompt := "", image_gen_prompt := "", clear_mask := "",
             clear_prompt := "", cost_estimate := "$0" }
  else a

def FEASIBILITY_BLOCKLIST : List String :=
  ["elevator", "lift", "platform lift", "vertical platform lift", "stair lift",
   "home elevator", "residential elevator", "chair lift"]

def FALLBACK_renovation_suggestion : String :=
  "Install grab bars and lever-style door handles for improved accessibility"
def FALLBACK_build_prompt : String :=
  "Brushed nickel grab bars (24 inches long, 1.5 inch diameter) mounted on the wall at 36 inches height, modern lever-style door handle replacing round knob, photorealistic, 8k quality, matching existing fixtures"
def FALLBACK_mask_prompt : String :=
  "the wall area near the door or entry point"

/-- The fence/cage/enclosure rewording of `validate_feasibility`. -/
def fixFenceTerms (p : String) : String :=
  let lp := strLower p
  if containsSub lp "fence" || containsSub lp "cage" || containsSub lp "enclosure" then
    strReplace (strReplace (strReplace (strReplace (strReplace (strReplace p
      "fence" "open handrail") "Fence" "Open handrail")
      "cage" "open safety rail") "Cage" "Open safety rail")
      "enclosure" "open handrail system") "Enclosure" "Open handrail system"
  else p

/-- `validate_feasibility` (`services.py`): blocked terms swap in the
fallback solution; fence-like wording is rewritten in the two prompt
fields when they are non-empty. -/
def validateFeasibility (a : AuditData) : AuditData :=
  let a1 :=
    if FEASIBILITY_BLOCKLIST.any
        (fun t => containsSub (strLower a.renovation_suggestion) t) then
      { a with renovation_suggestion := FALLBACK_renovation_suggestion,
               cost_estimate := "$250 - $450",
               build_prompt := FALLBACK_build_prompt,
               mask_prompt := FALLBACK_mask_prompt,
               image_gen_prompt := FALLBACK_build_prompt,
               clear_mask := "", clear_prompt := "",
               build_mask := FALLBACK_mask_prompt }
    else a
  let a2 :=
    if a1.build_prompt ≠ "" then { a1 with build_prompt := fixFenceTerms a1.build_prompt }
    else a1
  if a2.image_gen_prompt ≠ "" then
    { a2 with image_gen_prompt := fixFenceTerms a2.image_gen_prompt }
  else a2

/-- `audit_room` (`services.py`) as consumed by the workers: the Auditor
oracle yields either a raised exception or a raw payload, to which the
validation passes are applied (the cost-capping step rewrites only
cost fields, which are elided). -/
def auditRoomOutcome (raw : Except String AuditData) : Except String AuditData :=
  match raw with
  | .ok a => .ok (validateFeasibility (validateAuditResponse a))
  | .error e => .error e

/-! ### Listing data and job records (`main.py`) -/

/-- `listing_data["basic_info"]` as read by `process_listing_job`
(missing keys yield the `"Unknown"` defaults of the `.get` calls;
a missing `basic_info` dict is the all-`none` record). -/
structure BasicInfo where
  address : Option String := none
  price : Option String := none
  bedrooms : Option String := none
  bathrooms : Option String := none
  square_feet : Option String := none
  mls_number : Option String := none
deriving DecidableEq, Repr

/-- `listing_data["neighborhood"]` as read by `process_listing_job`. -/
structure NeighborhoodInfo where
  name : Option String := none
  location_description : Option String := none
  amenities : List String := []
deriving DecidableEq, Repr

/-- Successful Scraper payload (`scrape_realtor_ca_listing`); an
`"error"` key in the returned dict is the `Except.error` case of the
Scraper oracle. -/
structure ListingData where
  basic_info : BasicInfo := {}
  neighborhood : NeighborhoodInfo := {}
  property_photos : List String := []
deriving DecidableEq, Repr

/-- The `property_info` blob built at `main.py:108`. -/
structure PropertyInfo where
  address : String
  price : String
  bedrooms : String
  bathrooms : String
  square_feet : String
  mls_number : String
  neighborhood : String
  location : String
  amenities : List String
deriving DecidableEq, Repr

def buildPropertyInfo (d : ListingData) : PropertyInfo :=
  { address := d.basic_info.address.getD "Unknown",
    price := d.basic_info.price.getD "Unknown",
    bedrooms := d.basic_info.bedrooms.getD "Unknown",
    bathrooms := d.basic_info.bathrooms.getD "Unknown",
    square_feet := d.basic_info.square_feet.getD "Unknown",
    mls_number := d.basic_info.mls_number.getD "Unknown",
    neighborhood := d.neighborhood.name.getD "Unknown",
    location := d.neighborhood.location_description.getD "",
    amenities := d.neighborhood.amenities }

/-- The constant `property_info` of `process_single_image_job`. -/
def singlePropertyInfo : PropertyInfo :=
  { address := "Single Image Analysis", price := "N/A", bedrooms := "N/A",
    bathrooms := "N/A", square_feet := "N/A", mls_number := "N/A",
    neighborhood := "N/A", location := "", amenities := [] }

inductive JobStatus where
  | processing
  | completed
  | failed
deriving DecidableEq, Repr

/-- One per-photo result dict of the `results` list: the success shape
`{image_number, original_url, audit}` (`main.py:147`), the failure shape
with `error` and `audit: None` (`main.py:159`), optionally extended with
`renovated_image` by the generation loop (`main.py:215`). -/
structure ItemResult where
  image_number : Nat
  original_url : String
  audit : Option AuditData
  error : Option String := none
  renovated_image : Option String := none
deriving DecidableEq, Repr

instance : Inhabited ItemResult :=
  ⟨{ image_number := 0, original_url := "", audit := none }⟩

/-- One `JOBS[job_id]` record. -/
structure JobState where
  status : JobStatus
  property_info : Option PropertyInfo
  total_images : Nat
  audit_progress : Nat
  generation_progress : Nat
  current_status : String
  results : List ItemResult
  error : Option String
deriving DecidableEq, Repr

/-- The record installed by `/analyze-from-listing` (`main.py:467`). -/
def initialListingJob : JobState :=
  { status := .processing, property_info := none, total_images := 0,
    audit_progress := 0, generation_progress := 0,
    current_status := "Initializing...", results := [], error := none }

/-- The record installed by `/analyze` (`main.py:383`). -/
def initialSingleJob : JobState :=
  { initialListingJob with total_images := 1 }

def auditMsg (idx n : Nat) : String :=
  "Auditing image " ++ toString idx ++ "/" ++ toString n

def genMsg (idx n : Nat) : String :=
  "Generating image " ++ toString idx ++ "/" ++ toString n

/-! ### The listing-job pipeline (`process_listing_job`) -/

/-- `enumerate(xs, i)`. -/
def enum1 : Nat → List String → List (Nat × String)
  | _, [] => []
  | i, u :: us => (i, u) :: enum1 (i + 1) us

/-- The indices `i, i+1, ..., i+k-1` (the generation loop's
`enumerate(audit_results, 1)` index stream). -/
def idxFrom : Nat → Nat → List Nat
  | _, 0 => []
  | i, k + 1 => i :: idxFrom (i + 1) k

/-- The per-item entry appended to `audit_results` for item `(idx, url)`:
the audited payload on success, the error record on a raised exception
(`main.py:147` and `main.py:159`). -/
def entryOf (auditOf : Nat → Except String AuditData) (p : Nat × String) : ItemResult :=
  match auditRoomOutcome (auditOf p.1) with
  | .ok a => { image_number := p.1, original_url := p.2, audit := some a }
  | .error e => { image_number := p.1, original_url := p.2, audit := none, error := some e }

/-- `result["renovated_image"] = ...` (`main.py:215`): the entry is
mutated in place inside `audit_results`, identified by its item index. -/
def setArtifact (rs : List ItemResult) (idx : Nat) (art : String) : List ItemResult :=
  rs.map fun r =>
    if r.image_number = idx then { r with renovated_image := some art } else r

/-- Output of the audit loop: the job state and local `audit_results`
when the loop exits, the pollable snapshot taken at each item's
`await` (`snaps`), and the job state at the end of each iteration
(`after`). -/
structure AuditPhaseOut where
  state : JobState
  acc : List ItemResult
  snaps : List JobState
  after : List JobState
deriving Repr

/-- Phase 2 of `process_listing_job` (`main.py:133-165`): audit each item;
on success append the result, recompute `audit_progress` and republish
`results`; on a raised exception append an error entry and continue,
leaving the published job record untouched. -/
def auditLoop (auditOf : Nat → Except String AuditData) (n : Nat) :
    List (Nat × String) → JobState → List ItemResult → AuditPhaseOut
  | [], s, acc => { state := s, acc := acc, snaps := [], after := [] }
  | (idx, url) :: rest, s, acc =>
    let s1 := { s with current_status := auditMsg idx n }
    match auditRoomOutcome (auditOf idx) with
    | .ok a =>
      let acc2 := acc ++ [{ image_number := idx, original_url := url, audit := some a }]
      let s2 := { s1 with audit_progress := idx * 100 / n, results := acc2 }
      let o := auditLoop auditOf n rest s2 acc2
      { state := o.state, acc := o.acc, snaps := s1 :: o.snaps, after := s2 :: o.after }
    | .error e =>
      let acc2 := acc ++ [{ image_number := idx, original_url := url,
                            audit := none, error := some e }]
      let o := auditLoop auditOf n rest s1 acc2
      { state := o.state, acc := o.acc, snaps := s1 :: o.snaps, after := s1 :: o.after }

/-- Output of the generation loop: final job state, the (in-place
mutated) `audit_results`, the pollable snapshot at each generation
`await`, the job state at the end of each iteration, and the item
indices for which the Generator collaborator was actually invoked. -/
structure GenPhaseOut where
  state : JobState
  rs : List ItemResult
  snaps : List JobState
  after : List JobState
  calls : List Nat
deriving Repr

/-- Phase 3 of `process_listing_job` (`main.py:167-223`): skip items whose
audit failed (silently) or whose prompts are empty (after updating the
status text); otherwise invoke the Generator, attach the artifact when
bytes come back truthy, recompute `generation_progress` and republish;
a raised exception is swallowed and the loop continues.  The choice of
single- versus two-pass render spec (`main.py:187-208`) only shapes the
arguments of the external call and is subsumed by the Generator
oracle. -/
def genLoop (genOf : Nat → Except String (Option (List Nat))) (n : Nat) :
    List Nat → List ItemResult → JobState → GenPhaseOut
  | [], rs, s => { state := s, rs := rs, snaps := [], after := [], calls := [] }
  | idx :: rest, rs, s =>
    match (rs.getD (idx - 1) default).audit with
    | none =>
      let o := genLoop genOf n rest rs s
      { o with after := s :: o.after }
    | some a =>
      let s1 := { s with current_status := genMsg idx n }
      if a.image_gen_prompt = "" ∨ a.mask_prompt = "" then
        let o := genLoop genOf n rest rs s1
        { o with after := s1 :: o.after }
      else
        match genOf idx with
        | .error _ =>
          let o := genLoop genOf n rest rs s1
          { o with snaps := s1 :: o.snaps, after := s1 :: o.after, calls := idx :: o.calls }
        | .ok ob =>
          let rs2 :=
            match ob with
            | some bs => if bs.isEmpty then rs else setArtifact rs idx (encodeArtifact bs)
            | none => rs
          let s2 := { s1 with generation_progress := idx * 100 / n, results := rs2 }
          let o := genLoop genOf n rest rs2 s2
          { o with snaps := s1 :: o.snaps, after := s2 :: o.after, calls := idx :: o.calls }

/-- Everything observable about one background-job run: the terminal job
record, the full sequence of pollable states (initial record, one
snapshot per suspension point, terminal record), the worker-local
`audit_results` list at the end, the per-iteration states of the two
loops, and the Generator invocations. -/
structure RunOutcome where
  final : JobState
  states : List JobState
  acc : List ItemResult
  auditAfter : List JobState
  genAfter : List JobState
  genCalls : List Nat
deriving Repr

/-- `process_listing_job` (`main.py:78-234`) driven by the three
collaborator oracles.  `scrape` is the Scraper outcome; `auditOf idx`
and `genOf idx` are the Auditor/Generator outcomes for item `idx`. -/
def processListingJob (scrape : Except String ListingData)
    (auditOf : Nat → Except String AuditData)
    (genOf : Nat → Except String (Option (List Nat)))
    (maxImages : Nat) : RunOutcome :=
  let s0 := initialListingJob
  let s1 := { s0 with current_status := "Scraping listing..." }
  match scrape with
  | .error e =>
    let sF := { s1 with status := .failed,
                        error := some ("Failed to scrape listing: " ++ e) }
    { final := sF, states := [s0, s1, sF], acc := [],
      auditAfter := [], genAfter := [], genCalls := [] }
  | .ok d =>
    let s2 := { s1 with property_info := some (buildPropertyInfo d) }
    if d.property_photos.isEmpty then
      let sF := { s2 with status := .failed, error := some "No images found in listing" }
      { final := sF, states := [s0, s1, sF], acc := [],
        auditAfter := [], genAfter := [], genCalls := [] }
    else
      let images := d.property_photos.take maxImages
      let n := images.length
      let s3 := { s2 with total_images := n, results := [] }
      let oA := auditLoop auditOf n (enum1 1 images) s3 []
      let oG := genLoop genOf n (idxFrom 1 oA.acc.length) oA.acc oA.state
      let sF := { oG.state with status := .completed, current_status := "Completed",
                                audit_progress := 100, generation_progress := 100 }
      { final := sF, states := s0 :: s1 :: (oA.snaps ++ oG.snaps ++ [sF]), acc := oG.rs,
        auditAfter := oA.after, genAfter := oG.after, genCalls := oG.calls }

/-- `process_single_image_job` (`main.py:238-328`): audit the one image
(an exception fails the whole job), then generate when both prompts are
present; the two loop-shaped `after` lists are empty since this worker
has no loops. -/
def processSingleImageJob (auditOnce : Except String AuditData)
    (genOnce : Except String (Option (List Nat)))
    (imageUrl : String) : RunOutcome :=
  let s0 := initialSingleJob
  let s1 := { s0 with total_images := 1, results := [], current_status := auditMsg 1 1 }
  match auditRoomOutcome auditOnce with
  | .error e =>
    let sF := { s1 with status := .failed, error := some ("Job failed: " ++ e) }
    { final := sF, states := [s0, s1, sF], acc := [],
      auditAfter := [], genAfter := [], genCalls := [] }
  | .ok a =>
    let r : ItemResult := { image_number := 1, original_url := imageUrl, audit := some a }
    let s2 := { s1 with audit_progress := 100, results := [r] }
    let s3 := { s2 with current_status := genMsg 1 1 }
    if a.image_gen_prompt = "" ∨ a.mask_prompt = "" then
      let sF := { s3 with status := .completed, current_status := "Completed",
                          generation_progress := 100,
                          property_info := some singlePropertyInfo }
      { final := sF, states := [s0, s1, sF], acc := [r],
        auditAfter := [], genAfter := [], genCalls := [] }
    else
      match genOnce with
      | .error e =>
        let sF := { s3 with status := .failed, error := some ("Job failed: " ++ e) }
        { final := sF, states := [s0, s1, s3, sF], acc := [r],
          auditAfter := [], genAfter := [], genCalls := [1] }
      | .ok ob =>
        let r2 :=
          match ob with
          | some bs =>
            if bs.isEmpty then r else { r with renovated_image := some (encodeArtifact bs) }
          | none => r
        let sF := { s3 with status := .completed, current_status := "Completed",
                            generation_progress := 100, results := [r2],
                            property_info := some singlePropertyInfo }
        { final := sF, states := [s0, s1, s3, sF], acc := [r2],
          auditAfter := [], genAfter := [], genCalls := [1] }

/-! ### The on-demand generation endpoint (`generate_renovation_endpoint`) -/

/-- The fields of the posted `audit_data` dict that
`generate_renovation_endpoint` reads; a missing prompt (`.get` returning
`None`) and an empty one are indistinguishable to the endpoint (both
falsy), so they share the `""` representation. -/
structure GenAuditData where
  image_gen_prompt : String
  mask_prompt : String
  clear_mask : String := ""
  clear_prompt : String := ""
  build_mask : String := ""
  build_prompt : String := ""
deriving DecidableEq, Repr

/-- A `/generate-renovation` request body (`GenerateRenovationRequest`). -/
structure GenRequest where
  image_url : String
  audit_data : GenAuditData
  wheelchair_accessible : Bool := false
deriving DecidableEq, Repr

/-- `is_two_pass = bool(clear_mask and clear_prompt and build_mask and
build_prompt)` (`main.py:566`). -/
def isTwoPass (a : GenAuditData) : Bool :=
  !(a.clear_mask = "") && !(a.clear_prompt = "") &&
    !(a.build_mask = "") && !(a.build_prompt = "")

/-- The canonical `cache_key_data` structure (`main.py:576-586`).  The
actual key is the sha256 of its canonical (sorted-key) JSON
serialization; as that serialization is injective on this structure,
keys are modelled by the structure itself. -/
structure CacheKeyData where
  image_url : String
  image_gen_prompt : String
  mask_prompt : String
  is_two_pass : Bool
  clear_mask : String
  clear_prompt : String
  build_mask : String
  build_prompt : String
  wheelchair_accessible : Bool
deriving DecidableEq, Repr

def mkCacheKeyData (req : GenRequest) : CacheKeyData :=
  let tp := isTwoPass req.audit_data
  { image_url := req.image_url,
    image_gen_prompt := req.audit_data.image_gen_prompt,
    mask_prompt := req.audit_data.mask_prompt,
    is_two_pass := tp,
    clear_mask := if tp then req.audit_data.clear_mask else "",
    clear_prompt := if tp then req.audit_data.clear_prompt else "",
    build_mask := if tp then req.audit_data.build_mask else "",
    build_prompt := if tp then req.audit_data.build_prompt else "",
    wheelchair_accessible := req.wheelchair_accessible }

/-- One `image_generation_cache` value (`main.py:623-626`). -/
structure CacheEntry where
  renovated_image : String
  original_url : String
deriving DecidableEq, Repr

/-- The in-memory `image_generation_cache` dict, most recent insertion
first. -/
abbrev GenCache := List (CacheKeyData × CacheEntry)

def cacheLookup : GenCache → CacheKeyData → Option CacheEntry
  | [], _ => none
  | (k, v) :: rest, key => if k = key then some v else cacheLookup rest key

/-- The JSON response of `/generate-renovation`. -/
structure GenResponse where
  success : Bool
  renovated_image : Option String := none
  original_url : Option String := none
  cached : Option Bool := none
  error : Option String := none
deriving DecidableEq, Repr

/-- Result of one endpoint call: the cache afterwards, the response, and
how many times the Generator collaborator (`generate_renovation`) was
invoked during the call (0 or 1). -/
structure EndpointOut where
  cache : GenCache
  response : GenResponse
  generatorCalls : Nat
deriving Repr

/-- `generate_renovation_endpoint` (`main.py:537-648`).  `genResult` is
the Generator oracle's return value for this call (`None` or bytes);
a cache write happens only on truthy bytes. -/
def generateRenovationEndpoint (genResult : Option (List Nat))
    (cache : GenCache) (req : GenRequest) : EndpointOut :=
  if req.audit_data.image_gen_prompt = "" ∨ req.audit_data.mask_prompt = "" then
    { cache := cache,
      response := { success := false,
                    error := some "No renovation prompts found in audit data" },
      generatorCalls := 0 }
  else
    let key := mkCacheKeyData req
    match cacheLookup cache key with
    | some entry =>
      { cache := cache,
        response := { success := true, renovated_image := some entry.renovated_image,
                      original_url := some entry.original_url, cached := some true },
        generatorCalls := 0 }
    | none =>
      match genResult with
      | some bs =>
        if bs.isEmpty then
          { cache := cache,
            response := { success := false,
                          error := some "Image generation returned no data" },
            generatorCalls := 1 }
        else
          let art := encodeArtifact bs
          { cache := (key, { renovated_image := art, original_url := req.image_url }) :: cache,
            response := { success := true, renovated_image := some art,
                          original_url := some req.image_url, cached := some false },
            generatorCalls := 1 }
      | none =>
        { cache := cache,
          response := { success := false,
                        error := some "Image generation returned no data" },
          generatorCalls := 1 }

/-- A sequence of `/generate-renovation` calls, each paired with its
Generator oracle outcome, folded over the process-lifetime cache. -/
def runGenRequests : List (GenRequest × Option (List Nat)) → GenCache → GenCache
  | [], c => c
  | (r, g) :: rest, c => runGenRequests rest (generateRenovationEndpoint g c r).cache

instance : Inhabited JobState := ⟨initialListingJob⟩

/-! ### Concrete fixtures used by witnesses and counterexamples -/

/-- An audit payload reporting a barrier, with a usable render spec. -/
def barrierAudit : AuditData :=
  { barrier_detected := "Step at the entrance", renovation_suggestion := "Install a ramp",
    cost_estimate := "$1,000 - $2,000", image_gen_prompt := "a gentle concrete ramp",
    mask_prompt := "the entrance step", clear_mask := "", clear_prompt := "",
    build_mask := "", build_prompt := "" }

def listingOnePhoto : ListingData := { property_photos := ["http://img/1.jpg"] }

def listingTwoPhotos : ListingData := { property_photos := ["http://img/1.jpg", "http://img/2.jpg"] }

/-- Auditor oracle that raises on every item. -/
def auditAlwaysFails : Nat → Except String AuditData := fun _ => .error "audit boom"

/-- Auditor oracle that raises on item 1 and succeeds afterwards. -/
def auditFailsFirst : Nat → Except String AuditData :=
  fun idx => if idx = 1 then .error "audit boom" else .ok barrierAudit

/-- Generator oracle returning bytes for every item. -/
def genAlwaysBytes : Nat → Except String (Option (List Nat)) := fun _ => .ok (some [1, 2, 3])

/-- Generator oracle returning `None` for every item. -/
def genAlwaysNone : Nat → Except String (Option (List Nat)) := fun _ => .ok none

/-- An on-demand request with a usable render spec and no structural fields. -/
def demoRequest : GenRequest :=
  { image_url := "http://img/1.jpg",
    audit_data := { image_gen_prompt := "a gentle concrete ramp",
                    mask_prompt := "the entrance step" } }

/-! ### C7 — fetch succeeding with zero items -/

/-- C7: a listing job whose fetch succeeds but returns zero item URLs
terminates `failed` with a non-null error, an empty results list and
`totalItems = 0`. -/
theorem c7_zero_items_job_fails (bi : BasicInfo) (nb : NeighborhoodInfo)
    (auditOf : Nat → Except String AuditData)
    (genOf : Nat → Except String (Option (List Nat))) (maxImages : Nat) :
    let o := processListingJob
      (.ok { basic_info := bi, neighborhood := nb, property_photos := [] })
      auditOf genOf maxImages
    o.final.status = .failed ∧ o.final.error = some "No images found in listing" ∧
      o.final.results = [] ∧ o.final.total_images = 0 :=
  ⟨rfl, rfl, rfl, rfl⟩

/-! ### C9 — single-image jobs have no per-item isolation -/

/-- C9: in a single-image job, an Auditor error escalates the whole job
to `failed` with a non-null error and an empty results list. -/
theorem c9_single_image_audit_error_fails_job (e : String)
    (genOnce : Except String (Option (List Nat))) (url : String) :
    (processSingleImageJob (.error e) genOnce url).final.status = .failed ∧
      (processSingleImageJob (.error e) genOnce url).final.error
        = some ("Job failed: " ++ e) ∧
      (processSingleImageJob (.error e) genOnce url).final.results = [] :=
  ⟨rfl, rfl, rfl⟩

/-! ### C8 — state after failing out of the Fetching phase -/

/-- C8 counterexample: when the fetch succeeds but yields an empty item
list, the job fails out of the Fetching phase with `propertyInfo`
already populated — it does not stay null as the claim asserts. -/
theorem c8_counterexample_property_info_set :
    let o := processListingJob (.ok ({ } : ListingData))
      auditAlwaysFails genAlwaysBytes 5
    o.final.status = .failed ∧ o.final.property_info ≠ none := by
  exact ⟨rfl, by decide⟩

/-- C8 amended: a listing job failing from the Fetching phase keeps
`totalItems = 0` and empty results; `propertyInfo` stays null on a
scraper error, but on the empty-item-list failure it has already been
populated from the successful fetch. -/
theorem c8_amended_fetch_failure_state :
    (∀ (e : String) (auditOf : Nat → Except String AuditData)
       (genOf : Nat → Except String (Option (List Nat))) (maxImages : Nat),
       let o := processListingJob (.error e) auditOf genOf maxImages
       o.final.status = .failed ∧ o.final.property_info = none ∧
         o.final.total_images = 0 ∧ o.final.results = [] ∧
         o.final.error = some ("Failed to scrape listing: " ++ e)) ∧
    (∀ (bi : BasicInfo) (nb : NeighborhoodInfo)
       (auditOf : Nat → Except String AuditData)
       (genOf : Nat → Except String (Option (List Nat))) (maxImages : Nat),
       let o := processListingJob
         (.ok { basic_info := bi, neighborhood := nb, property_photos := [] })
         auditOf genOf maxImages
       o.final.status = .failed ∧
         o.final.property_info =
           some (buildPropertyInfo { basic_info := bi, neighborhood := nb,
                                     property_photos := [] }) ∧
         o.final.total_images = 0 ∧ o.final.results = []) :=
  ⟨fun _ _ _ _ => ⟨rfl, rfl, rfl, rfl, rfl⟩, fun _ _ _ _ _ => ⟨rfl, rfl, rfl, rfl⟩⟩

/-! ### C5 — cache-key normalization of the structural fields -/

/-- C5: the cache key normalizes the four structural sub-fields to empty
whenever the request is not two-pass eligible, so two two-pass-ineligible
requests agreeing on source URL, primary prompt, mask prompt and
accessibility flag produce identical keys even with stray structural
fields. -/
theorem c5_cache_key_normalizes_structural_fields :
    (∀ req : GenRequest, isTwoPass req.audit_data = false →
        (mkCacheKeyData req).clear_mask = "" ∧ (mkCacheKeyData req).clear_prompt = "" ∧
        (mkCacheKeyData req).build_mask = "" ∧ (mkCacheKeyData req).build_prompt = "" ∧
        (mkCacheKeyData req).is_two_pass = false) ∧
    (∀ r1 r2 : GenRequest, isTwoPass r1.audit_data = false →
        isTwoPass r2.audit_data = false →
        r1.image_url = r2.image_url →
        r1.audit_data.image_gen_prompt = r2.audit_data.image_gen_prompt →
        r1.audit_data.mask_prompt = r2.audit_data.mask_prompt →
        r1.wheelchair_accessible = r2.wheelchair_accessible →
        mkCacheKeyData r1 = mkCacheKeyData r2) := by
  constructor
  · intro req h
    simp [mkCacheKeyData, h]
  · intro r1 r2 h1 h2 hurl hp hm hw
    simp [mkCacheKeyData, h1, h2, hurl, hp, hm, hw]

/-- C5 witness: two concrete two-pass-ineligible requests that differ in
a stray non-empty `clear_mask` still share the cache key. -/
theorem c5_witness :
    isTwoPass demoRequest.audit_data = false ∧
      isTwoPass { demoRequest with
        audit_data := { demoRequest.audit_data with clear_mask := "old wall" } }.audit_data
        = false ∧
      mkCacheKeyData demoRequest =
        mkCacheKeyData { demoRequest with
          audit_data := { demoRequest.audit_data with clear_mask := "old wall" } } :=
  ⟨by decide, by decide,
    c5_cache_key_normalizes_structural_fields.2 _ _ (by decide) (by decide) rfl rfl rfl rfl⟩

/-! ### C4 — idempotence of repeated identical on-demand requests -/

/-- C4 counterexample: when the Generator returns `None`, the first
request stores nothing, so an identical second request invokes the
Generator collaborator again (one invocation on each of the two calls),
contradicting the unconditional claim. -/
theorem c4_counterexample_failed_generation_retries :
    (generateRenovationEndpoint none [] demoRequest).generatorCalls = 1 ∧
      (generateRenovationEndpoint none
        (generateRenovationEndpoint none [] demoRequest).cache
        demoRequest).generatorCalls = 1 :=
  ⟨rfl, rfl⟩

/-- C4 amended: whenever the first of two identical on-demand requests
succeeds (returns an artifact), the second returns the very same
artifact from the cache and does not invoke the Generator collaborator
at all. -/
theorem c4_amended_second_identical_request_cached (g1 g2 : Option (List Nat))
    (cache : GenCache) (req : GenRequest)
    (h : (generateRenovationEndpoint g1 cache req).response.success = true) :
    (generateRenovationEndpoint g2 (generateRenovationEndpoint g1 cache req).cache
        req).response.success = true ∧
    (generateRenovationEndpoint g2 (generateRenovationEndpoint g1 cache req).cache
        req).response.renovated_image =
      (generateRenovationEndpoint g1 cache req).response.renovated_image ∧
    (generateRenovationEndpoint g2 (generateRenovationEndpoint g1 cache req).cache
        req).response.cached = some true ∧
    (generateRenovationEndpoint g2 (generateRenovationEndpoint g1 cache req).cache
        req).generatorCalls = 0 := by
  by_cases hp : req.audit_data.image_gen_prompt = "" ∨ req.audit_data.mask_prompt = ""
  · exact absurd h (by simp [generateRenovationEndpoint, hp])
  · cases hl : cacheLookup cache (mkCacheKeyData req) with
    | some entry => simp [generateRenovationEndpoint, hp, hl]
    | none =>
      cases g1 with
      | none => exact absurd h (by simp [generateRenovationEndpoint, hp, hl])
      | some bs =>
        by_cases hbs : bs.isEmpty
        · exact absurd h (by simp [generateRenovationEndpoint, hp, hl, hbs])
        · simp [generateRenovationEndpoint, hp, hl, hbs, cacheLookup]

/-- C4 witness: a concrete first request that succeeds, whose identical
follow-up is served from the cache without a Generator invocation. -/
theorem c4_witness :
    (generateRenovationEndpoint (some [1, 2, 3]) [] demoRequest).response.success = true ∧
      (generateRenovationEndpoint none
          (generateRenovationEndpoint (some [1, 2, 3]) [] demoRequest).cache
          demoRequest).response.renovated_image =
        (generateRenovationEndpoint (some [1, 2, 3]) [] demoRequest).response.renovated_image ∧
      (generateRenovationEndpoint none
          (generateRenovationEndpoint (some [1, 2, 3]) [] demoRequest).cache
          demoRequest).generatorCalls = 0 := by
  have h := c4_amended_second_identical_request_cached (some [1, 2, 3]) none [] demoRequest
    (by decide)
  exact ⟨by decide, h.2.1, h.2.2.2⟩

/-! ### C10 — the cache holds only successfully generated artifacts -/

/-- One endpoint call either leaves the cache untouched or prepends the
entry built from a non-empty Generator result for this request. -/
lemma genEndpoint_cache_cases (g : Option (List Nat)) (c : GenCache) (r : GenRequest) :
    (generateRenovationEndpoint g c r).cache = c ∨
      ∃ bs : List Nat, g = some bs ∧ bs ≠ [] ∧
        (generateRenovationEndpoint g c r).cache =
          (mkCacheKeyData r,
            { renovated_image := encodeArtifact bs, original_url := r.image_url }) :: c := by
  by_cases hp : r.audit_data.image_gen_prompt = "" ∨ r.audit_data.mask_prompt = ""
  · exact Or.inl (by simp [generateRenovationEndpoint, hp])
  · cases hl : cacheLookup c (mkCacheKeyData r) with
    | some entry => exact Or.inl (by simp [generateRenovationEndpoint, hp, hl])
    | none =>
      cases g with
      | none => exact Or.inl (by simp [generateRenovationEndpoint, hp, hl])
      | some bs =>
        by_cases hbs : bs.isEmpty
        · exact Or.inl (by simp [generateRenovationEndpoint, hp, hl, hbs])
        · refine Or.inr ⟨bs, rfl, by simpa using hbs, ?_⟩
          simp [generateRenovationEndpoint, hp, hl, hbs]

/-- Every entry of the process-lifetime cache traces back to a request of
the processed sequence whose Generator call returned non-empty bytes. -/
lemma runGenRequests_entries (seq : List (GenRequest × Option (List Nat))) :
    ∀ c : GenCache, ∀ kv ∈ runGenRequests seq c,
      kv ∈ c ∨
        ∃ req bs, (req, some bs) ∈ seq ∧ bs ≠ [] ∧ kv.1 = mkCacheKeyData req ∧
          kv.2 = { renovated_image := encodeArtifact bs, original_url := req.image_url } := by
  induction seq with
  | nil => exact fun c kv h => Or.inl h
  | cons p rest ih =>
    intro c kv h
    obtain ⟨r, g⟩ := p
    simp only [runGenRequests] at h
    rcases genEndpoint_cache_cases g c r with hc | ⟨bs, hg, hbs, hc⟩
    · rw [hc] at h
      rcases ih _ kv h with h' | ⟨req, bs, hmem, hne, hk, hv⟩
      · exact Or.inl h'
      · exact Or.inr ⟨req, bs, List.mem_cons_of_mem _ hmem, hne, hk, hv⟩
    · rw [hc] at h
      rcases ih _ kv h with h' | ⟨req, bs', hmem, hne, hk, hv⟩
      · rcases List.mem_cons.mp h' with h'' | h''
        · subst hg
          refine Or.inr ⟨r, bs, List.mem_cons_self _ _, hbs, ?_, ?_⟩
          · rw [h'']
          · rw [h'']
        · exact Or.inl h''
      · exact Or.inr ⟨req, bs', List.mem_cons_of_mem _ hmem, hne, hk, hv⟩

/-- C10: the generation cache gains an entry only from a Generator call
returning non-empty bytes; a `None`/empty result writes nothing, a later
identical request invokes the Generator again, and every cache entry
pairs a successfully generated artifact with the source URL it came
from. -/
theorem c10_cache_holds_only_successful_generations :
    (∀ (cache : GenCache) (req : GenRequest) (g : Option (List Nat)),
        g = none ∨ g = some [] →
        (generateRenovationEndpoint g cache req).cache = cache) ∧
    (∀ (cache : GenCache) (req : GenRequest) (g2 : Option (List Nat)),
        req.audit_data.image_gen_prompt ≠ "" → req.audit_data.mask_prompt ≠ "" →
        cacheLookup cache (mkCacheKeyData req) = none →
        (generateRenovationEndpoint none cache req).generatorCalls = 1 ∧
          (generateRenovationEndpoint g2
            (generateRenovationEndpoint none cache req).cache req).generatorCalls = 1) ∧
    (∀ seq : List (GenRequest × Option (List Nat)), ∀ kv ∈ runGenRequests seq [],
        ∃ req bs, (req, some bs) ∈ seq ∧ bs ≠ [] ∧ kv.1 = mkCacheKeyData req ∧
          kv.2 = { renovated_image := encodeArtifact bs,
                   original_url := req.image_url }) := by
  refine ⟨?_, ?_, ?_⟩
  · rintro cache req g (rfl | rfl)
    · by_cases hp : req.audit_data.image_gen_prompt = "" ∨ req.audit_data.mask_prompt = ""
      · simp [generateRenovationEndpoint, hp]
      · cases hl : cacheLookup cache (mkCacheKeyData req) <;>
          simp [generateRenovationEndpoint, hp, hl]
    · by_cases hp : req.audit_data.image_gen_prompt = "" ∨ req.audit_data.mask_prompt = ""
      · simp [generateRenovationEndpoint, hp]
      · cases hl : cacheLookup cache (mkCacheKeyData req) <;>
          simp [generateRenovationEndpoint, hp, hl]
  · intro cache req g2 hp1 hp2 hl
    have hp : ¬(req.audit_data.image_gen_prompt = "" ∨ req.audit_data.mask_prompt = "") := by
      simp [hp1, hp2]
    have hcache : (generateRenovationEndpoint none cache req).cache = cache := by
      simp [generateRenovationEndpoint, hp, hl]
    refine ⟨by simp [generateRenovationEndpoint, hp, hl], ?_⟩
    rw [hcache]
    cases g2 with
    | none => simp [generateRenovationEndpoint, hp, hl]
    | some bs =>
      by_cases hbs : bs.isEmpty <;> simp [generateRenovationEndpoint, hp, hl, hbs]
  · intro seq kv h
    rcases runGenRequests_entries seq [] kv h with h' | h'
    · exact absurd h' (List.not_mem_nil kv)
    · exact h'

/-- C10 witness: a failed generation writes nothing and is retried, and
the entry written by a successful generation records that artifact with
its source URL. -/
theorem c10_witness :
    (generateRenovationEndpoint none [] demoRequest).cache = [] ∧
      (generateRenovationEndpoint none [] demoRequest).generatorCalls = 1 ∧
      (∃ req bs,
        (req, some bs) ∈ [(demoRequest, some ([1, 2, 3] : List Nat))] ∧ bs ≠ [] ∧
          (mkCacheKeyData demoRequest,
            ({ renovated_image := encodeArtifact [1, 2, 3],
               original_url := "http://img/1.jpg" } : CacheEntry)).1 = mkCacheKeyData req ∧
          (mkCacheKeyData demoRequest,
            ({ renovated_image := encodeArtifact [1, 2, 3],
               original_url := "http://img/1.jpg" } : CacheEntry)).2 =
            { renovated_image := encodeArtifact bs, original_url := req.image_url }) := by
  refine ⟨c10_cache_holds_only_successful_generations.1 [] demoRequest none (Or.inl rfl),
    (c10_cache_holds_only_successful_generations.2.1 [] demoRequest none (by decide)
      (by decide) rfl).1,
    c10_cache_holds_only_successful_generations.2.2
      [(demoRequest, some [1, 2, 3])] _ ?_⟩
  show _ ∈ runGenRequests [(demoRequest, some [1, 2, 3])] []
  decide

/-! ### Structural lemmas about the listing pipeline -/

lemma enum1_length : ∀ (us : List String) (i : Nat), (enum1 i us).length = us.length := by
  intro us
  induction us with
  | nil => intro i; rfl
  | cons u rest ih => intro i; simp [enum1, ih]

lemma enum1_getD : ∀ (us : List String) (i k : Nat), k < us.length →
    (enum1 i us).getD k (0, "") = (i + k, us.getD k "") := by
  intro us
  induction us with
  | nil => intro i k h; simp at h
  | cons u rest ih =>
    intro i k h
    cases k with
    | zero => simp [enum1]
    | succ k' =>
      have h' : k' < rest.length := by simpa using h
      simp only [enum1, List.getD_cons_succ]
      rw [ih (i + 1) k' h']
      simp [Nat.add_assoc, Nat.add_comm 1 k']

/-- The worker-local `audit_results` list at the end of the audit loop is
one entry per item, in order. -/
lemma auditLoop_acc (auditOf : Nat → Except String AuditData) (n : Nat) :
    ∀ (items : List (Nat × String)) (s : JobState) (acc : List ItemResult),
      (auditLoop auditOf n items s acc).acc = acc ++ items.map (entryOf auditOf) := by
  intro items
  induction items with
  | nil => intro s acc; simp [auditLoop]
  | cons p rest ih =>
    intro s acc
    obtain ⟨idx, url⟩ := p
    simp only [auditLoop]
    cases h : auditRoomOutcome (auditOf idx) with
    | ok a => simp [h, ih, entryOf]
    | error e => simp [h, ih, entryOf]

/-- When every audit raises, the published job record is never touched by
the audit loop (only the worker-local list grows). -/
lemma auditLoop_all_fail (auditOf : Nat → Except String AuditData) (n : Nat) :
    ∀ (items : List (Nat × String)) (s : JobState) (acc : List ItemResult),
      (∀ p ∈ items, (auditRoomOutcome (auditOf p.1)).isOk = false) →
      (auditLoop auditOf n items s acc).state.results = s.results ∧
        (auditLoop auditOf n items s acc).state.audit_progress = s.audit_progress ∧
        (auditLoop auditOf n items s acc).state.generation_progress = s.generation_progress ∧
        (auditLoop auditOf n items s acc).state.status = s.status := by
  intro items
  induction items with
  | nil => intro s acc _; exact ⟨rfl, rfl, rfl, rfl⟩
  | cons p rest ih =>
    intro s acc hfail
    obtain ⟨idx, url⟩ := p
    have hhead := hfail (idx, url) (List.mem_cons_self _ _)
    simp only [auditLoop]
    cases h : auditRoomOutcome (auditOf idx) with
    | ok a => rw [h] at hhead; simp [Except.isOk, Except.toBool] at hhead
    | error e =>
      have h' := ih { s with current_status := auditMsg idx n }
        (acc ++ [{ image_number := idx, original_url := url,
                   audit := none, error := some e }])
        (fun q hq => hfail q (List.mem_cons_of_mem _ hq))
      simpa using h'

lemma setArtifact_length (rs : List ItemResult) (idx : Nat) (art : String) :
    (setArtifact rs idx art).length = rs.length := by
  simp [setArtifact]

/-- `setArtifact` only ever rewrites the `renovated_image` field. -/
lemma setArtifact_getD (rs : List ItemResult) (idx : Nat) (art : String) (k : Nat)
    (h : k < rs.length) :
    (setArtifact rs idx art).getD k default =
      (if (rs.getD k default).image_number = idx
        then { rs.getD k default with renovated_image := some art }
        else rs.getD k default) := by
  have hm : k < (setArtifact rs idx art).length := by rw [setArtifact_length]; exact h
  rw [List.getD_eq_getElem _ _ hm, List.getD_eq_getElem _ _ h]
  simp [setArtifact]


/-- Canonical numbering of `audit_results`: entry `k` carries
`image_number = k + 1` (the `enumerate(..., 1)` index). -/
def CanonicalNums (rs : List ItemResult) : Prop :=
  ∀ k, k < rs.length → (rs.getD k default).image_number = k + 1

lemma setArtifact_canonical {rs : List ItemResult} {idx : Nat} {art : String}
    (h : CanonicalNums rs) : CanonicalNums (setArtifact rs idx art) := by
  intro k hk
  rw [setArtifact_length] at hk
  rw [setArtifact_getD rs idx art k hk]
  split <;> simpa using h k hk

/-! Branch-unfolding equations for the two loops. -/

lemma auditLoop_cons_ok {auditOf : Nat → Except String AuditData} {n idx : Nat}
    {url : String} {rest : List (Nat × String)} {s : JobState} {acc : List ItemResult}
    {a : AuditData} (h : auditRoomOutcome (auditOf idx) = .ok a) :
    auditLoop auditOf n ((idx, url) :: rest) s acc =
      (let s1 := { s with current_status := auditMsg idx n }
       let acc2 := acc ++ [{ image_number := idx, original_url := url, audit := some a }]
       let s2 := { s1 with audit_progress := idx * 100 / n, results := acc2 }
       let o := auditLoop auditOf n rest s2 acc2
       { state := o.state, acc := o.acc, snaps := s1 :: o.snaps, after := s2 :: o.after }) := by
  simp only [auditLoop]; rw [h]

lemma auditLoop_cons_error {auditOf : Nat → Except String AuditData} {n idx : Nat}
    {url : String} {rest : List (Nat × String)} {s : JobState} {acc : List ItemResult}
    {e : String} (h : auditRoomOutcome (auditOf idx) = .error e) :
    auditLoop auditOf n ((idx, url) :: rest) s acc =
      (let s1 := { s with current_status := auditMsg idx n }
       let acc2 := acc ++ [{ image_number := idx, original_url := url,
                             audit := none, error := some e }]
       let o := auditLoop auditOf n rest s1 acc2
       { state := o.state, acc := o.acc, snaps := s1 :: o.snaps, after := s1 :: o.after }) := by
  simp only [auditLoop]; rw [h]

lemma genLoop_cons_skip {genOf : Nat → Except String (Option (List Nat))} {n idx : Nat}
    {rest : List Nat} {rs : List ItemResult} {s : JobState}
    (ha : (rs.getD (idx - 1) default).audit = none) :
    genLoop genOf n (idx :: rest) rs s =
      (let o := genLoop genOf n rest rs s
       { o with after := s :: o.after }) := by
  simp only [genLoop]; rw [ha]

lemma genLoop_cons_noPrompts {genOf : Nat → Except String (Option (List Nat))} {n idx : Nat}
    {rest : List Nat} {rs : List ItemResult} {s : JobState} {a : AuditData}
    (ha : (rs.getD (idx - 1) default).audit = some a)
    (hp : a.image_gen_prompt = "" ∨ a.mask_prompt = "") :
    genLoop genOf n (idx :: rest) rs s =
      (let s1 := { s with current_status := genMsg idx n }
       let o := genLoop genOf n rest rs s1
       { o with after := s1 :: o.after }) := by
  simp only [genLoop]; rw [ha]; simp [hp]

lemma genLoop_cons_genError {genOf : Nat → Except String (Option (List Nat))} {n idx : Nat}
    {rest : List Nat} {rs : List ItemResult} {s : JobState} {a : AuditData} {e : String}
    (ha : (rs.getD (idx - 1) default).audit = some a)
    (hp : ¬(a.image_gen_prompt = "" ∨ a.mask_prompt = ""))
    (hg : genOf idx = .error e) :
    genLoop genOf n (idx :: rest) rs s =
      (let s1 := { s with current_status := genMsg idx n }
       let o := genLoop genOf n rest rs s1
       { o with snaps := s1 :: o.snaps, after := s1 :: o.after, calls := idx :: o.calls }) := by
  simp only [genLoop]; rw [ha]; simp [hp, hg]

lemma genLoop_cons_genNone {genOf : Nat → Except String (Option (List Nat))} {n idx : Nat}
    {rest : List Nat} {rs : List ItemResult} {s : JobState} {a : AuditData}
    (ha : (rs.getD (idx - 1) default).audit = some a)
    (hp : ¬(a.image_gen_prompt = "" ∨ a.mask_prompt = ""))
    (hg : genOf idx = .ok none) :
    genLoop genOf n (idx :: rest) rs s =
      (let s1 := { s with current_status := genMsg idx n }
       let s2 := { s1 with generation_progress := idx * 100 / n, results := rs }
       let o := genLoop genOf n rest rs s2
       { o with snaps := s1 :: o.snaps, after := s2 :: o.after, calls := idx :: o.calls }) := by
  simp only [genLoop]; rw [ha]; simp [hp, hg]

lemma genLoop_cons_genEmpty {genOf : Nat → Except String (Option (List Nat))} {n idx : Nat}
    {rest : List Nat} {rs : List ItemResult} {s : JobState} {a : AuditData} {bs : List Nat}
    (ha : (rs.getD (idx - 1) default).audit = some a)
    (hp : ¬(a.image_gen_prompt = "" ∨ a.mask_prompt = ""))
    (hg : genOf idx = .ok (some bs)) (hbs : bs.isEmpty = true) :
    genLoop genOf n (idx :: rest) rs s =
      (let s1 := { s with current_status := genMsg idx n }
       let s2 := { s1 with generation_progress := idx * 100 / n, results := rs }
       let o := genLoop genOf n rest rs s2
       { o with snaps := s1 :: o.snaps, after := s2 :: o.after, calls := idx :: o.calls }) := by
  simp only [genLoop]; rw [ha]; simp [hp, hg, hbs]

lemma genLoop_cons_genBytes {genOf : Nat → Except String (Option (List Nat))} {n idx : Nat}
    {rest : List Nat} {rs : List ItemResult} {s : JobState} {a : AuditData} {bs : List Nat}
    (ha : (rs.getD (idx - 1) default).audit = some a)
    (hp : ¬(a.image_gen_prompt = "" ∨ a.mask_prompt = ""))
    (hg : genOf idx = .ok (some bs)) (hbs : bs.isEmpty = false) :
    genLoop genOf n (idx :: rest) rs s =
      (let s1 := { s with current_status := genMsg idx n }
       let rs2 := setArtifact rs idx (encodeArtifact bs)
       let s2 := { s1 with generation_progress := idx * 100 / n, results := rs2 }
       let o := genLoop genOf n rest rs2 s2
       { o with snaps := s1 :: o.snaps, after := s2 :: o.after, calls := idx :: o.calls }) := by
  have hne : ¬bs = [] := by
    intro h; rw [h] at hbs; simp at hbs
  simp only [genLoop]; rw [ha]; simp [hp, hg, hne]

/-- The generation loop never rewrites anything but `renovated_image`,
and rewrites that only for entries whose audit succeeded with both
prompts usable. -/
lemma genLoop_preserves (genOf : Nat → Except String (Option (List Nat))) (n : Nat) :
    ∀ (remaining : List Nat) (rs : List ItemResult) (s : JobState),
      CanonicalNums rs →
      (genLoop genOf n remaining rs s).rs.length = rs.length ∧
      ∀ k, k < rs.length →
        ((genLoop genOf n remaining rs s).rs.getD k default).image_number =
            (rs.getD k default).image_number ∧
        ((genLoop genOf n remaining rs s).rs.getD k default).original_url =
            (rs.getD k default).original_url ∧
        ((genLoop genOf n remaining rs s).rs.getD k default).audit =
            (rs.getD k default).audit ∧
        ((genLoop genOf n remaining rs s).rs.getD k default).error =
            (rs.getD k default).error ∧
        (((genLoop genOf n remaining rs s).rs.getD k default).renovated_image =
            (rs.getD k default).renovated_image ∨
          ∃ a, (rs.getD k default).audit = some a ∧
            ¬a.image_gen_prompt = "" ∧ ¬a.mask_prompt = "") := by
  intro remaining
  induction remaining with
  | nil => intro rs s _; exact ⟨rfl, fun k _ => ⟨rfl, rfl, rfl, rfl, Or.inl rfl⟩⟩
  | cons idx rest ih =>
    intro rs s hc
    cases ha : (rs.getD (idx - 1) default).audit with
    | none => rw [genLoop_cons_skip ha]; exact ih rs s hc
    | some a =>
      by_cases hp : a.image_gen_prompt = "" ∨ a.mask_prompt = ""
      · rw [genLoop_cons_noPrompts ha hp]; exact ih rs _ hc
      · cases hg : genOf idx with
        | error e => rw [genLoop_cons_genError ha hp hg]; exact ih rs _ hc
        | ok ob =>
          cases ob with
          | none => rw [genLoop_cons_genNone ha hp hg]; exact ih rs _ hc
          | some bs =>
            cases hbs : bs.isEmpty with
            | true => rw [genLoop_cons_genEmpty ha hp hg hbs]; exact ih rs _ hc
            | false =>
              rw [genLoop_cons_genBytes ha hp hg hbs]
              push_neg at hp
              obtain ⟨hlen, hk⟩ :=
                ih (setArtifact rs idx (encodeArtifact bs))
                  { { s with current_status := genMsg idx n } with
                      generation_progress := idx * 100 / n,
                      results := setArtifact rs idx (encodeArtifact bs) }
                  (setArtifact_canonical hc)
              refine ⟨by rw [hlen, setArtifact_length], ?_⟩
              intro k hklt
              have hklt' : k < (setArtifact rs idx (encodeArtifact bs)).length := by
                rw [setArtifact_length]; exact hklt
              obtain ⟨h1, h2, h3, h4, h5⟩ := hk k hklt'
              rw [setArtifact_getD rs idx (encodeArtifact bs) k hklt] at h1 h2 h3 h4 h5
              by_cases heq : (rs.getD k default).image_number = idx
              · rw [if_pos heq] at h1 h2 h3 h4
                have hkidx : k = idx - 1 := by
                  have := hc k hklt
                  omega
                refine ⟨h1, h2, h3, h4, Or.inr ⟨a, ?_, hp.1, hp.2⟩⟩
                rw [hkidx]; exact ha
              · rw [if_neg heq] at h1 h2 h3 h4 h5
                exact ⟨h1, h2, h3, h4, h5⟩

/-- When an item's audit outcome is missing for every remaining index,
the generation loop is a no-op apart from bookkeeping `after` states. -/
lemma genLoop_all_skip (genOf : Nat → Except String (Option (List Nat))) (n : Nat) :
    ∀ (remaining : List Nat) (rs : List ItemResult) (s : JobState),
      (∀ idx ∈ remaining, (rs.getD (idx - 1) default).audit = none) →
      (genLoop genOf n remaining rs s).state = s ∧
        (genLoop genOf n remaining rs s).rs = rs ∧
        (genLoop genOf n remaining rs s).calls = [] ∧
        (genLoop genOf n remaining rs s).snaps = [] := by
  intro remaining
  induction remaining with
  | nil => intro rs s _; exact ⟨rfl, rfl, rfl, rfl⟩
  | cons idx rest ih =>
    intro rs s hnone
    have ha := hnone idx (List.mem_cons_self _ _)
    rw [genLoop_cons_skip ha]
    exact ih rs s (fun j hj => hnone j (List.mem_cons_of_mem _ hj))

lemma idxFrom_mem : ∀ (k i idx : Nat), idx ∈ idxFrom i k → i ≤ idx ∧ idx < i + k := by
  intro k
  induction k with
  | zero => intro i idx h; simp [idxFrom] at h
  | succ k' ih =>
    intro i idx h
    rw [idxFrom] at h
    rcases List.mem_cons.mp h with rfl | h'
    · omega
    · have := ih (i + 1) idx h'
      omega

lemma idxFrom_length : ∀ (k i : Nat), (idxFrom i k).length = k := by
  intro k
  induction k with
  | zero => intro i; rfl
  | succ k' ih => intro i; simp [idxFrom, ih]

/-- Entry `k` of the audit-phase accumulation. -/
lemma auditAcc_getD (auditOf : Nat → Except String AuditData) (images : List String)
    (k : Nat) (h : k < images.length) :
    ((enum1 1 images).map (entryOf auditOf)).getD k default =
      entryOf auditOf (1 + k, images.getD k "") := by
  have hl : k < (enum1 1 images).length := by rw [enum1_length]; exact h
  have hm : k < ((enum1 1 images).map (entryOf auditOf)).length := by
    simpa using hl
  rw [List.getD_eq_getElem _ _ hm, List.getElem_map,
    ← List.getD_eq_getElem (enum1 1 images) (0, "") hl, enum1_getD images 1 k h]

lemma auditAcc_canonical (auditOf : Nat → Except String AuditData) (images : List String) :
    CanonicalNums ((enum1 1 images).map (entryOf auditOf)) := by
  intro k hk
  have h : k < images.length := by simpa [enum1_length] using hk
  rw [auditAcc_getD auditOf images k h, Nat.add_comm 1 k]
  cases ho : auditRoomOutcome (auditOf (k + 1)) <;> simp [entryOf, ho]

/-- The job record at the start of the audit loop (fetch succeeded with
item count `n`). -/
def listingStartState (d : ListingData) (n : Nat) : JobState :=
  { status := .processing, property_info := some (buildPropertyInfo d),
    total_images := n, audit_progress := 0, generation_progress := 0,
    current_status := "Scraping listing...", results := [], error := none }

/-- The audit phase of a listing job whose fetch succeeded. -/
def listingAuditPhase (auditOf : Nat → Except String AuditData) (d : ListingData)
    (maxImages : Nat) : AuditPhaseOut :=
  let images := d.property_photos.take maxImages
  auditLoop auditOf images.length (enum1 1 images)
    (listingStartState d images.length) []

/-- The generation phase of a listing job whose fetch succeeded. -/
def listingGenPhase (auditOf : Nat → Except String AuditData)
    (genOf : Nat → Except String (Option (List Nat))) (d : ListingData)
    (maxImages : Nat) : GenPhaseOut :=
  let oA := listingAuditPhase auditOf d maxImages
  genLoop genOf (d.property_photos.take maxImages).length
    (idxFrom 1 oA.acc.length) oA.acc oA.state

/-- Decomposition of a listing-job run whose fetch succeeds with at least
one photo into the two loop phases. -/
lemma listing_ok_decompose (bi : BasicInfo) (nb : NeighborhoodInfo) (u : String)
    (us : List String) (auditOf : Nat → Except String AuditData)
    (genOf : Nat → Except String (Option (List Nat))) (maxImages : Nat) :
    (processListingJob (.ok ⟨bi, nb, u :: us⟩) auditOf genOf maxImages).final.status
        = .completed ∧
    (processListingJob (.ok ⟨bi, nb, u :: us⟩) auditOf genOf maxImages).final.results
        = (listingGenPhase auditOf genOf ⟨bi, nb, u :: us⟩ maxImages).state.results ∧
    (processListingJob (.ok ⟨bi, nb, u :: us⟩) auditOf genOf maxImages).acc
        = (listingGenPhase auditOf genOf ⟨bi, nb, u :: us⟩ maxImages).rs ∧
    (processListingJob (.ok ⟨bi, nb, u :: us⟩) auditOf genOf maxImages).genCalls
        = (listingGenPhase auditOf genOf ⟨bi, nb, u :: us⟩ maxImages).calls ∧
    (processListingJob (.ok ⟨bi, nb, u :: us⟩) auditOf genOf maxImages).auditAfter
        = (listingAuditPhase auditOf ⟨bi, nb, u :: us⟩ maxImages).after ∧
    (processListingJob (.ok ⟨bi, nb, u :: us⟩) auditOf genOf maxImages).genAfter
        = (listingGenPhase auditOf genOf ⟨bi, nb, u :: us⟩ maxImages).after :=
  ⟨rfl, rfl, rfl, rfl, rfl, rfl⟩

/-- The audit-phase accumulation in closed form: one entry per item. -/
lemma listingAuditPhase_acc (auditOf : Nat → Except String AuditData) (d : ListingData)
    (maxImages : Nat) :
    (listingAuditPhase auditOf d maxImages).acc =
      (enum1 1 (d.property_photos.take maxImages)).map (entryOf auditOf) := by
  have h := auditLoop_acc auditOf (d.property_photos.take maxImages).length
    (enum1 1 (d.property_photos.take maxImages))
    (listingStartState d (d.property_photos.take maxImages).length) []
  simpa [listingAuditPhase] using h

lemma enum1_mem : ∀ (us : List String) (i : Nat) (p : Nat × String),
    p ∈ enum1 i us → i ≤ p.1 ∧ p.1 < i + us.length := by
  intro us
  induction us with
  | nil => intro i p h; simp [enum1] at h
  | cons u rest ih =>
    intro i p h
    rw [enum1] at h
    rcases List.mem_cons.mp h with rfl | h'
    · simp
    · have := ih (i + 1) p h'
      simp only [List.length_cons]
      omega

/-! ### C1 — per-item isolation in listing jobs -/

/-- C1 counterexample: fetch yields one item and the Auditor fails on it;
the job does end `completed`, but the results list visible to pollers is
empty — not the claimed one entry per item — because the audit-error
path never republishes `results` and neither does completion. -/
theorem c1_counterexample_published_results_lost :
    (processListingJob (.ok listingOnePhoto) auditAlwaysFails genAlwaysBytes 5).final.status
        = .completed ∧
      (processListingJob (.ok listingOnePhoto) auditAlwaysFails
        genAlwaysBytes 5).final.results.length = 0 :=
  ⟨rfl, rfl⟩

/-- C1 amended: with a successful fetch of at least one photo the job
always terminates `completed` (per-item audit failures never escalate),
and the worker-local accumulation has exactly one entry per item, a
failed item's entry carrying the error text, a null audit outcome and no
artifact; but the `results` list published to pollers is refreshed only
on success paths — when the Auditor fails on every item it stays
empty. -/
theorem c1_amended_per_item_isolation (bi : BasicInfo) (nb : NeighborhoodInfo)
    (u : String) (us : List String) (auditOf : Nat → Except String AuditData)
    (genOf : Nat → Except String (Option (List Nat))) (maxImages : Nat) :
    (processListingJob (.ok ⟨bi, nb, u :: us⟩) auditOf genOf maxImages).final.status
        = .completed ∧
    (processListingJob (.ok ⟨bi, nb, u :: us⟩) auditOf genOf maxImages).acc.length
        = ((u :: us).take maxImages).length ∧
    (∀ k, k < ((u :: us).take maxImages).length → ∀ e,
        auditRoomOutcome (auditOf (k + 1)) = .error e →
        ((processListingJob (.ok ⟨bi, nb, u :: us⟩) auditOf genOf
            maxImages).acc.getD k default).audit = none ∧
        ((processListingJob (.ok ⟨bi, nb, u :: us⟩) auditOf genOf
            maxImages).acc.getD k default).error = some e ∧
        ((processListingJob (.ok ⟨bi, nb, u :: us⟩) auditOf genOf
            maxImages).acc.getD k default).renovated_image = none) ∧
    ((∀ k, k < ((u :: us).take maxImages).length →
        ∃ e, auditRoomOutcome (auditOf (k + 1)) = .error e) →
      (processListingJob (.ok ⟨bi, nb, u :: us⟩) auditOf genOf
          maxImages).final.results = []) := by
  obtain ⟨hstatus, hres, haccEq, hcallsEq, hAA, hGA⟩ :=
    listing_ok_decompose bi nb u us auditOf genOf maxImages
  have haccA : (listingAuditPhase auditOf ⟨bi, nb, u :: us⟩ maxImages).acc
      = (enum1 1 ((u :: us).take maxImages)).map (entryOf auditOf) := by
    simpa using listingAuditPhase_acc auditOf ⟨bi, nb, u :: us⟩ maxImages
  have hcanon : CanonicalNums (listingAuditPhase auditOf ⟨bi, nb, u :: us⟩ maxImages).acc := by
    rw [haccA]; exact auditAcc_canonical auditOf ((u :: us).take maxImages)
  have haccLen : (listingAuditPhase auditOf ⟨bi, nb, u :: us⟩ maxImages).acc.length
      = ((u :: us).take maxImages).length := by
    rw [haccA]; simp [enum1_length]
  have hGP : listingGenPhase auditOf genOf ⟨bi, nb, u :: us⟩ maxImages
      = genLoop genOf ((u :: us).take maxImages).length
          (idxFrom 1 (listingAuditPhase auditOf ⟨bi, nb, u :: us⟩ maxImages).acc.length)
          (listingAuditPhase auditOf ⟨bi, nb, u :: us⟩ maxImages).acc
          (listingAuditPhase auditOf ⟨bi, nb, u :: us⟩ maxImages).state := rfl
  have hpres := genLoop_preserves genOf ((u :: us).take maxImages).length
    (idxFrom 1 (listingAuditPhase auditOf ⟨bi, nb, u :: us⟩ maxImages).acc.length)
    (listingAuditPhase auditOf ⟨bi, nb, u :: us⟩ maxImages).acc
    (listingAuditPhase auditOf ⟨bi, nb, u :: us⟩ maxImages).state hcanon
  refine ⟨hstatus, ?_, ?_, ?_⟩
  · rw [haccEq, hGP, hpres.1, haccLen]
  · intro k hk e he
    have hk' : k < (listingAuditPhase auditOf ⟨bi, nb, u :: us⟩ maxImages).acc.length := by
      rw [haccLen]; exact hk
    have hAk : (listingAuditPhase auditOf ⟨bi, nb, u :: us⟩ maxImages).acc.getD k default
        = entryOf auditOf (1 + k, ((u :: us).take maxImages).getD k "") := by
      rw [haccA]; exact auditAcc_getD auditOf _ k hk
    have hAfields :
        ((listingAuditPhase auditOf ⟨bi, nb, u :: us⟩ maxImages).acc.getD k default).audit
            = none ∧
        ((listingAuditPhase auditOf ⟨bi, nb, u :: us⟩ maxImages).acc.getD k default).error
            = some e ∧
        ((listingAuditPhase auditOf ⟨bi, nb, u :: us⟩
            maxImages).acc.getD k default).renovated_image = none := by
      rw [hAk, Nat.add_comm 1 k]
      refine ⟨?_, ?_, ?_⟩ <;> simp [entryOf, he]
    obtain ⟨h1, h2, haud, herr, hren⟩ := hpres.2 k hk'
    rw [haccEq, hGP]
    refine ⟨by rw [haud, hAfields.1], by rw [herr, hAfields.2.1], ?_⟩
    rcases hren with h' | ⟨a, ha, _, _⟩
    · rw [h', hAfields.2.2]
    · rw [hAfields.1] at ha
      exact absurd ha (by simp)
  · intro hallfail
    have hnone : ∀ j, j < ((u :: us).take maxImages).length →
        ((listingAuditPhase auditOf ⟨bi, nb, u :: us⟩ maxImages).acc.getD j default).audit
          = none := by
      intro j hj
      obtain ⟨e, he⟩ := hallfail j hj
      rw [haccA, auditAcc_getD auditOf _ j hj, Nat.add_comm 1 j]
      simp [entryOf, he]
    have hskip := genLoop_all_skip genOf ((u :: us).take maxImages).length
      (idxFrom 1 (listingAuditPhase auditOf ⟨bi, nb, u :: us⟩ maxImages).acc.length)
      (listingAuditPhase auditOf ⟨bi, nb, u :: us⟩ maxImages).acc
      (listingAuditPhase auditOf ⟨bi, nb, u :: us⟩ maxImages).state
      (by
        intro idx hidx
        obtain ⟨hge, hlt⟩ := idxFrom_mem _ 1 idx hidx
        apply hnone
        rw [haccLen] at hlt
        omega)
    have hAfail := auditLoop_all_fail auditOf ((u :: us).take maxImages).length
      (enum1 1 ((u :: us).take maxImages))
      (listingStartState ⟨bi, nb, u :: us⟩ ((u :: us).take maxImages).length) []
      (by
        intro p hp
        obtain ⟨hge, hlt⟩ := enum1_mem _ 1 p hp
        have hplt : p.1 - 1 < ((u :: us).take maxImages).length := by omega
        obtain ⟨e, he⟩ := hallfail (p.1 - 1) hplt
        have hp1 : p.1 - 1 + 1 = p.1 := by omega
        rw [hp1] at he
        rw [he]
        simp [Except.isOk, Except.toBool])
    have hAPstate : (listingAuditPhase auditOf ⟨bi, nb, u :: us⟩ maxImages).state
        = (auditLoop auditOf ((u :: us).take maxImages).length
            (enum1 1 ((u :: us).take maxImages))
            (listingStartState ⟨bi, nb, u :: us⟩ ((u :: us).take maxImages).length) []).state
        := rfl
    rw [hres, hGP, hskip.1, hAPstate, hAfail.1]
    rfl

/-- C1 witness: one item whose audit raises; the job completes, the
accumulated entry carries the error with no audit and no artifact, and
the published results list is empty. -/
theorem c1_witness :
    (processListingJob (.ok ⟨{}, {}, "http://img/1.jpg" :: []⟩) auditAlwaysFails
        genAlwaysBytes 5).final.status = .completed ∧
    ((processListingJob (.ok ⟨{}, {}, "http://img/1.jpg" :: []⟩) auditAlwaysFails
        genAlwaysBytes 5).acc.getD 0 default).audit = none ∧
    ((processListingJob (.ok ⟨{}, {}, "http://img/1.jpg" :: []⟩) auditAlwaysFails
        genAlwaysBytes 5).acc.getD 0 default).error = some "audit boom" ∧
    (processListingJob (.ok ⟨{}, {}, "http://img/1.jpg" :: []⟩) auditAlwaysFails
        genAlwaysBytes 5).final.results = [] := by
  have h := c1_amended_per_item_isolation {} {} "http://img/1.jpg" [] auditAlwaysFails
    genAlwaysBytes 5
  have hc := h.2.2.1 0 (by decide) "audit boom" rfl
  exact ⟨h.1, hc.1, hc.2.1, h.2.2.2 (fun k hk => ⟨"audit boom", rfl⟩)⟩

/-! ### C6 — artifacts only for barrier items with usable render specs -/

lemma blocklist_empty_suggestion :
    FEASIBILITY_BLOCKLIST.any (fun t => containsSub (strLower "") t) = false := by
  decide

lemma validateFeasibility_barrier (a : AuditData) :
    (validateFeasibility a).barrier_detected = a.barrier_detected := by
  simp only [validateFeasibility]
  split_ifs <;> rfl

lemma noBarrierDetected_congr {a b : AuditData}
    (h : a.barrier_detected = b.barrier_detected) :
    noBarrierDetected a = noBarrierDetected b := by
  simp only [noBarrierDetected, h]

/-- A payload that went through both validation passes keeps a non-empty
primary prompt only when a barrier was reported. -/
lemma auditRoom_validated_barrier (raw : AuditData) :
    (validateFeasibility (validateAuditResponse raw)).image_gen_prompt ≠ "" →
    noBarrierDetected (validateFeasibility (validateAuditResponse raw)) = false := by
  intro hne
  by_cases hb : noBarrierDetected raw
  · exfalso
    apply hne
    rw [validateAuditResponse, if_pos hb]
    simp only [validateFeasibility]
    simp [blocklist_empty_suggestion]
  · have hbd := validateFeasibility_barrier (validateAuditResponse raw)
    rw [validateAuditResponse, if_neg hb] at hbd ⊢
    rw [noBarrierDetected_congr hbd]
    simpa using hb

/-- The invariant C6 needs of every per-item entry: audits stored in
entries went through validation (non-empty prompt forces a reported
barrier), and an artifact is attached only to an entry whose audit
succeeded with both prompts usable. -/
def GoodEntry (r : ItemResult) : Prop :=
  (∀ a, r.audit = some a → a.image_gen_prompt ≠ "" → noBarrierDetected a = false) ∧
  (r.renovated_image.isSome = true →
    ∃ a, r.audit = some a ∧ a.image_gen_prompt ≠ "" ∧ a.mask_prompt ≠ "" ∧
      noBarrierDetected a = false)

lemma entryOf_good (auditOf : Nat → Except String AuditData) (p : Nat × String) :
    GoodEntry (entryOf auditOf p) := by
  cases ho : auditOf p.1 with
  | ok raw =>
    have ho2 : auditRoomOutcome (auditOf p.1) =
        .ok (validateFeasibility (validateAuditResponse raw)) := by
      simp [auditRoomOutcome, ho]
    constructor
    · intro a ha hne
      rw [entryOf, ho2] at ha
      simp only [Option.some.injEq] at ha
      obtain rfl := ha.symm
      exact auditRoom_validated_barrier raw hne
    · intro hart
      rw [entryOf, ho2] at hart
      simp at hart
  | error e =>
    have ho2 : auditRoomOutcome (auditOf p.1) = .error e := by
      simp [auditRoomOutcome, ho]
    constructor
    · intro a ha
      rw [entryOf, ho2] at ha
      simp at ha
    · intro hart
      rw [entryOf, ho2] at hart
      simp at hart

lemma setArtifact_audit (rs : List ItemResult) (j : Nat) (art : String) (k : Nat) :
    ((setArtifact rs j art).getD k default).audit = (rs.getD k default).audit := by
  by_cases h : k < rs.length
  · rw [setArtifact_getD rs j art k h]; split <;> rfl
  · have h1 : rs.length ≤ k := le_of_not_lt h
    have h2 : (setArtifact rs j art).length ≤ k := by rw [setArtifact_length]; exact h1
    rw [List.getD_eq_default _ _ h1, List.getD_eq_default _ _ h2]

/-- Attaching the artifact produced for an eligible item preserves the
per-entry invariant. -/
lemma setArtifact_good {rs : List ItemResult} {idx : Nat} {art : String} {a : AuditData}
    (hc : CanonicalNums rs) (hgood : ∀ r ∈ rs, GoodEntry r)
    (ha : (rs.getD (idx - 1) default).audit = some a)
    (hp1 : a.image_gen_prompt ≠ "") (hp2 : a.mask_prompt ≠ "") :
    ∀ r ∈ setArtifact rs idx art, GoodEntry r := by
  intro r hr
  rw [setArtifact, List.mem_map] at hr
  obtain ⟨r', hr', rfl⟩ := hr
  by_cases heq : r'.image_number = idx
  · rw [if_pos heq]
    obtain ⟨i, hi, hri⟩ := List.getElem_of_mem hr'
    have hgetd : rs.getD i default = r' := by
      rw [List.getD_eq_getElem _ _ hi, hri]
    have hnum : r'.image_number = i + 1 := by
      rw [← hgetd]; exact hc i hi
    have hii : i = idx - 1 := by omega
    have haud : r'.audit = some a := by
      rw [← hgetd, hii]; exact ha
    have hbar : noBarrierDetected a = false :=
      (hgood r' hr').1 a haud hp1
    exact ⟨fun b hb hbne => by
        simp only at hb
        rw [haud] at hb
        obtain rfl := (Option.some.injEq _ _ ▸ hb).symm
        exact hbar,
      fun _ => ⟨a, by simpa using haud, hp1, hp2, hbar⟩⟩
  · rw [if_neg heq]
    exact hgood r' hr'

/-- Through the generation loop, every entry of the (mutated) local list
and of the published results list keeps the C6 invariant. -/
lemma genLoop_good (genOf : Nat → Except String (Option (List Nat))) (n : Nat) :
    ∀ (remaining : List Nat) (rs : List ItemResult) (s : JobState),
      CanonicalNums rs → (∀ r ∈ rs, GoodEntry r) → (∀ r ∈ s.results, GoodEntry r) →
      (∀ r ∈ (genLoop genOf n remaining rs s).rs, GoodEntry r) ∧
      (∀ r ∈ (genLoop genOf n remaining rs s).state.results, GoodEntry r) := by
  intro remaining
  induction remaining with
  | nil => intro rs s _ hrs hres; exact ⟨hrs, hres⟩
  | cons idx rest ih =>
    intro rs s hc hrs hres
    cases ha : (rs.getD (idx - 1) default).audit with
    | none => rw [genLoop_cons_skip ha]; exact ih rs s hc hrs hres
    | some a =>
      by_cases hp : a.image_gen_prompt = "" ∨ a.mask_prompt = ""
      · rw [genLoop_cons_noPrompts ha hp]; exact ih rs _ hc hrs hres
      · cases hg : genOf idx with
        | error e => rw [genLoop_cons_genError ha hp hg]; exact ih rs _ hc hrs hres
        | ok ob =>
          cases ob with
          | none => rw [genLoop_cons_genNone ha hp hg]; exact ih rs _ hc hrs hrs
          | some bs =>
            cases hbs : bs.isEmpty with
            | true => rw [genLoop_cons_genEmpty ha hp hg hbs]; exact ih rs _ hc hrs hrs
            | false =>
              rw [genLoop_cons_genBytes ha hp hg hbs]
              push_neg at hp
              have hgood2 : ∀ r ∈ setArtifact rs idx (encodeArtifact bs), GoodEntry r :=
                setArtifact_good hc hrs ha hp.1 hp.2
              exact ih (setArtifact rs idx (encodeArtifact bs)) _
                (setArtifact_canonical hc)
                (fun r hr => hgood2 r hr)
                (fun r hr => hgood2 r hr)

/-- Through the audit loop, both the accumulation and the published
results list keep the C6 invariant. -/
lemma auditLoop_good (auditOf : Nat → Except String AuditData) (n : Nat) :
    ∀ (items : List (Nat × String)) (s : JobState) (acc : List ItemResult),
      (∀ r ∈ acc, GoodEntry r) → (∀ r ∈ s.results, GoodEntry r) →
      (∀ r ∈ (auditLoop auditOf n items s acc).acc, GoodEntry r) ∧
      (∀ r ∈ (auditLoop auditOf n items s acc).state.results, GoodEntry r) := by
  intro items
  induction items with
  | nil => intro s acc hacc hres; exact ⟨hacc, hres⟩
  | cons p rest ih =>
    intro s acc hacc hres
    obtain ⟨idx, url⟩ := p
    cases h : auditRoomOutcome (auditOf idx) with
    | ok a =>
      rw [auditLoop_cons_ok h]
      have hnew : GoodEntry
          ({ image_number := idx, original_url := url, audit := some a } : ItemResult) := by
        have heq : ({ image_number := idx, original_url := url, audit := some a } : ItemResult)
            = entryOf auditOf (idx, url) := by simp [entryOf, h]
        rw [heq]; exact entryOf_good auditOf (idx, url)
      have hacc2 : ∀ r ∈ acc ++
          [({ image_number := idx, original_url := url, audit := some a } : ItemResult)],
          GoodEntry r := by
        intro r hr
        rcases List.mem_append.mp hr with h' | h'
        · exact hacc r h'
        · rw [List.mem_singleton] at h'
          rw [h']; exact hnew
      exact ih _ _ hacc2 hacc2
    | error e =>
      rw [auditLoop_cons_error h]
      have hnew : GoodEntry ({ image_number := idx, original_url := url,
                               audit := none, error := some e } : ItemResult) := by
        constructor
        · intro a ha; simp at ha
        · intro hart; simp at hart
      have hacc2 : ∀ r ∈ acc ++ [({ image_number := idx, original_url := url,
                                     audit := none, error := some e } : ItemResult)],
          GoodEntry r := by
        intro r hr
        rcases List.mem_append.mp hr with h' | h'
        · exact hacc r h'
        · rw [List.mem_singleton] at h'
          rw [h']; exact hnew
      exact ih _ _ hacc2 hres

/-- Every Generator invocation of the generation loop belongs to a
remaining index whose entry has a successful audit with usable
prompts. -/
lemma genLoop_calls (genOf : Nat → Except String (Option (List Nat))) (n : Nat) :
    ∀ (remaining : List Nat) (rs : List ItemResult) (s : JobState),
      ∀ idx ∈ (genLoop genOf n remaining rs s).calls,
        idx ∈ remaining ∧ ∃ a, (rs.getD (idx - 1) default).audit = some a ∧
          a.image_gen_prompt ≠ "" ∧ a.mask_prompt ≠ "" := by
  intro remaining
  induction remaining with
  | nil => intro rs s idx h; simp [genLoop] at h
  | cons j rest ih =>
    intro rs s idx hmem
    cases ha : (rs.getD (j - 1) default).audit with
    | none =>
      rw [genLoop_cons_skip ha] at hmem
      obtain ⟨hr, hrest⟩ := ih rs s idx hmem
      exact ⟨List.mem_cons_of_mem _ hr, hrest⟩
    | some a =>
      by_cases hp : a.image_gen_prompt = "" ∨ a.mask_prompt = ""
      · rw [genLoop_cons_noPrompts ha hp] at hmem
        obtain ⟨hr, hrest⟩ := ih rs _ idx hmem
        exact ⟨List.mem_cons_of_mem _ hr, hrest⟩
      · cases hg : genOf j with
        | error e =>
          rw [genLoop_cons_genError ha hp hg] at hmem
          push_neg at hp
          rcases List.mem_cons.mp hmem with rfl | hmem'
          · exact ⟨List.mem_cons_self _ _, a, ha, hp.1, hp.2⟩
          · obtain ⟨hr, hrest⟩ := ih rs _ idx hmem'
            exact ⟨List.mem_cons_of_mem _ hr, hrest⟩
        | ok ob =>
          cases ob with
          | none =>
            rw [genLoop_cons_genNone ha hp hg] at hmem
            push_neg at hp
            rcases List.mem_cons.mp hmem with rfl | hmem'
            · exact ⟨List.mem_cons_self _ _, a, ha, hp.1, hp.2⟩
            · obtain ⟨hr, hrest⟩ := ih rs _ idx hmem'
              exact ⟨List.mem_cons_of_mem _ hr, hrest⟩
          | some bs =>
            cases hbs : bs.isEmpty with
            | true =>
              rw [genLoop_cons_genEmpty ha hp hg hbs] at hmem
              push_neg at hp
              rcases List.mem_cons.mp hmem with rfl | hmem'
              · exact ⟨List.mem_cons_self _ _, a, ha, hp.1, hp.2⟩
              · obtain ⟨hr, hrest⟩ := ih rs _ idx hmem'
                exact ⟨List.mem_cons_of_mem _ hr, hrest⟩
            | false =>
              rw [genLoop_cons_genBytes ha hp hg hbs] at hmem
              push_neg at hp
              rcases List.mem_cons.mp hmem with rfl | hmem'
              · exact ⟨List.mem_cons_self _ _, a, ha, hp.1, hp.2⟩
              · obtain ⟨hr, ⟨b, hb, hb1, hb2⟩⟩ :=
                  ih (setArtifact rs j (encodeArtifact bs)) _ idx hmem'
                rw [setArtifact_audit rs j (encodeArtifact bs) (idx - 1)] at hb
                exact ⟨List.mem_cons_of_mem _ hr, b, hb, hb1, hb2⟩

/-- C6: in both job kinds, a Result entry carries a rendered artifact
only if its audit succeeded, the (validated) audit outcome reported a
barrier, and both the primary prompt and the mask prompt were usable;
and an item whose audit failed is never submitted to the Generator. -/
theorem c6_artifact_requires_barrier_and_spec :
    (∀ (bi : BasicInfo) (nb : NeighborhoodInfo) (u : String) (us : List String)
        (auditOf : Nat → Except String AuditData)
        (genOf : Nat → Except String (Option (List Nat))) (maxImages : Nat),
      (∀ r ∈ (processListingJob (.ok ⟨bi, nb, u :: us⟩) auditOf genOf
            maxImages).final.results,
          r.renovated_image.isSome = true →
          ∃ a, r.audit = some a ∧ a.image_gen_prompt ≠ "" ∧ a.mask_prompt ≠ "" ∧
            noBarrierDetected a = false) ∧
      (∀ idx ∈ (processListingJob (.ok ⟨bi, nb, u :: us⟩) auditOf genOf
            maxImages).genCalls,
          ∃ a, ((processListingJob (.ok ⟨bi, nb, u :: us⟩) auditOf genOf
              maxImages).acc.getD (idx - 1) default).audit = some a ∧
            a.image_gen_prompt ≠ "" ∧ a.mask_prompt ≠ "")) ∧
    (∀ (auditOnce : Except String AuditData)
        (genOnce : Except String (Option (List Nat))) (url : String),
      (∀ r ∈ (processSingleImageJob auditOnce genOnce url).final.results,
          r.renovated_image.isSome = true →
          ∃ a, r.audit = some a ∧ a.image_gen_prompt ≠ "" ∧ a.mask_prompt ≠ "" ∧
            noBarrierDetected a = false) ∧
      (∀ e, auditRoomOutcome auditOnce = .error e →
          (processSingleImageJob auditOnce genOnce url).genCalls = [])) := by
  constructor
  · intro bi nb u us auditOf genOf maxImages
    obtain ⟨hstatus, hres, haccEq, hcallsEq, hAA, hGA⟩ :=
      listing_ok_decompose bi nb u us auditOf genOf maxImages
    have haccA : (listingAuditPhase auditOf ⟨bi, nb, u :: us⟩ maxImages).acc
        = (enum1 1 ((u :: us).take maxImages)).map (entryOf auditOf) := by
      simpa using listingAuditPhase_acc auditOf ⟨bi, nb, u :: us⟩ maxImages
    have hcanon : CanonicalNums (listingAuditPhase auditOf ⟨bi, nb, u :: us⟩ maxImages).acc := by
      rw [haccA]; exact auditAcc_canonical auditOf ((u :: us).take maxImages)
    have haccLen : (listingAuditPhase auditOf ⟨bi, nb, u :: us⟩ maxImages).acc.length
        = ((u :: us).take maxImages).length := by
      rw [haccA]; simp [enum1_length]
    have hGP : listingGenPhase auditOf genOf ⟨bi, nb, u :: us⟩ maxImages
        = genLoop genOf ((u :: us).take maxImages).length
            (idxFrom 1 (listingAuditPhase auditOf ⟨bi, nb, u :: us⟩ maxImages).acc.length)
            (listingAuditPhase auditOf ⟨bi, nb, u :: us⟩ maxImages).acc
            (listingAuditPhase auditOf ⟨bi, nb, u :: us⟩ maxImages).state := rfl
    have hAP : listingAuditPhase auditOf ⟨bi, nb, u :: us⟩ maxImages
        = auditLoop auditOf ((u :: us).take maxImages).length
            (enum1 1 ((u :: us).take maxImages))
            (listingStartState ⟨bi, nb, u :: us⟩ ((u :: us).take maxImages).length) []
        := rfl
    have hAgood := auditLoop_good auditOf ((u :: us).take maxImages).length
      (enum1 1 ((u :: us).take maxImages))
      (listingStartState ⟨bi, nb, u :: us⟩ ((u :: us).take maxImages).length) []
      (fun r hr => absurd hr (List.not_mem_nil r))
      (fun r hr => absurd hr (List.not_mem_nil r))
    have hGgood := genLoop_good genOf ((u :: us).take maxImages).length
      (idxFrom 1 (listingAuditPhase auditOf ⟨bi, nb, u :: us⟩ maxImages).acc.length)
      (listingAuditPhase auditOf ⟨bi, nb, u :: us⟩ maxImages).acc
      (listingAuditPhase auditOf ⟨bi, nb, u :: us⟩ maxImages).state hcanon
      (by rw [hAP]; exact hAgood.1)
      (by rw [hAP]; exact hAgood.2)
    constructor
    · intro r hr hart
      rw [hres, hGP] at hr
      exact (hGgood.2 r hr).2 hart
    · intro idx hidx
      rw [hcallsEq, hGP] at hidx
      obtain ⟨hmem, b, hb, hb1, hb2⟩ := genLoop_calls genOf
        ((u :: us).take maxImages).length
        (idxFrom 1 (listingAuditPhase auditOf ⟨bi, nb, u :: us⟩ maxImages).acc.length)
        (listingAuditPhase auditOf ⟨bi, nb, u :: us⟩ maxImages).acc
        (listingAuditPhase auditOf ⟨bi, nb, u :: us⟩ maxImages).state idx hidx
      obtain ⟨hge, hlt⟩ := idxFrom_mem _ 1 idx hmem
      have hklt : idx - 1 < (listingAuditPhase auditOf ⟨bi, nb, u :: us⟩
          maxImages).acc.length := by omega
      have hpres := genLoop_preserves genOf ((u :: us).take maxImages).length
        (idxFrom 1 (listingAuditPhase auditOf ⟨bi, nb, u :: us⟩ maxImages).acc.length)
        (listingAuditPhase auditOf ⟨bi, nb, u :: us⟩ maxImages).acc
        (listingAuditPhase auditOf ⟨bi, nb, u :: us⟩ maxImages).state hcanon
      have haudEq := (hpres.2 (idx - 1) hklt).2.2.1
      rw [haccEq, hGP]
      refine ⟨b, ?_, hb1, hb2⟩
      rw [haudEq, hb]
  · intro auditOnce genOnce url
    cases auditOnce with
    | error e =>
      constructor
      · intro r hr
        simp [processSingleImageJob, auditRoomOutcome] at hr
      · intro e' _; rfl
    | ok raw =>
      have ho : auditRoomOutcome (.ok raw)
          = .ok (validateFeasibility (validateAuditResponse raw)) := rfl
      constructor
      · intro r hr hart
        by_cases hp : (validateFeasibility (validateAuditResponse raw)).image_gen_prompt = ""
            ∨ (validateFeasibility (validateAuditResponse raw)).mask_prompt = ""
        · simp only [processSingleImageJob, ho, hp, if_true] at hr
          simp only [List.mem_singleton] at hr
          rw [hr] at hart
          simp at hart
        · push_neg at hp
          cases genOnce with
          | error e =>
            simp only [processSingleImageJob, ho] at hr
            rw [if_neg (by simpa using (not_or.mpr hp))] at hr
            simp only [List.mem_singleton] at hr
            rw [hr] at hart
            simp at hart
          | ok ob =>
            simp only [processSingleImageJob, ho] at hr
            rw [if_neg (by simpa using (not_or.mpr hp))] at hr
            simp only [List.mem_singleton] at hr
            cases ob with
            | none =>
              rw [hr] at hart
              simp at hart
            | some bs =>
              cases hbs : bs.isEmpty with
              | true =>
                simp only [hbs, if_true] at hr
                rw [hr] at hart
                simp at hart
              | false =>
                simp [hbs] at hr
                rw [hr]
                exact ⟨validateFeasibility (validateAuditResponse raw), rfl, hp.1, hp.2,
                  auditRoom_validated_barrier raw hp.1⟩
      · intro e' he'
        rw [ho] at he'
        cases he'

/-- Auditor oracle that reports a barrier with usable prompts. -/
def auditAlwaysBarrier : Nat → Except String AuditData := fun _ => .ok barrierAudit

/-- C6 witness: in a concrete run producing a rendered artifact, the
carrying entry has a successful audit with a reported barrier and
usable prompts. -/
theorem c6_witness :
    ∃ a, ({ image_number := 1, original_url := "http://img/1.jpg",
            audit := some (validateFeasibility (validateAuditResponse barrierAudit)),
            error := none,
            renovated_image := some (encodeArtifact [1, 2, 3]) } : ItemResult).audit
          = some a ∧
      a.image_gen_prompt ≠ "" ∧ a.mask_prompt ≠ "" ∧ noBarrierDetected a = false := by
  have h := (c6_artifact_requires_barrier_and_spec.1 {} {} "http://img/1.jpg" []
    auditAlwaysBarrier genAlwaysBytes 5).1
  exact h _ (by decide) (by decide)

/-! ### C3 — which iterations update progress and republish -/

/-- Per-iteration behaviour of the audit loop, expressed on the chain of
end-of-iteration states (`s` itself standing for "before item 1"): a
successful audit of the `k`-th remaining item sets `audit_progress` to
the floor formula and republishes the grown accumulation; a failed one
leaves both exactly as they were. -/
lemma auditLoop_after_spec (auditOf : Nat → Except String AuditData) (nn : Nat) :
    ∀ (us : List String) (i : Nat) (s : JobState) (acc : List ItemResult),
      (auditLoop auditOf nn (enum1 i us) s acc).after.length = us.length ∧
      ∀ k, k < us.length →
        (∀ a, auditRoomOutcome (auditOf (i + k)) = .ok a →
          ((s :: (auditLoop auditOf nn (enum1 i us) s acc).after).getD (k + 1)
              default).audit_progress = (i + k) * 100 / nn ∧
          ((s :: (auditLoop auditOf nn (enum1 i us) s acc).after).getD (k + 1)
              default).results
            = acc ++ ((enum1 i us).take (k + 1)).map (entryOf auditOf)) ∧
        (∀ e, auditRoomOutcome (auditOf (i + k)) = .error e →
          ((s :: (auditLoop auditOf nn (enum1 i us) s acc).after).getD (k + 1)
              default).audit_progress
            = ((s :: (auditLoop auditOf nn (enum1 i us) s acc).after).getD k
              default).audit_progress ∧
          ((s :: (auditLoop auditOf nn (enum1 i us) s acc).after).getD (k + 1)
              default).results
            = ((s :: (auditLoop auditOf nn (enum1 i us) s acc).after).getD k
              default).results) := by
  intro us
  induction us with
  | nil =>
    intro i s acc
    exact ⟨rfl, fun k hk => absurd hk (Nat.not_lt_zero k)⟩
  | cons u tail ih =>
    intro i s acc
    rw [show enum1 i (u :: tail) = (i, u) :: enum1 (i + 1) tail from rfl]
    cases h : auditRoomOutcome (auditOf i) with
    | ok a =>
      rw [auditLoop_cons_ok h]
      obtain ⟨ihlen, ihspec⟩ := ih (i + 1)
        { s with current_status := auditMsg i nn, audit_progress := i * 100 / nn,
                 results := acc ++ [{ image_number := i, original_url := u,
                                      audit := some a }] }
        (acc ++ [{ image_number := i, original_url := u, audit := some a }])
      refine ⟨by simpa using ihlen, ?_⟩
      intro k hk
      cases k with
      | zero =>
        constructor
        · intro a' ha'
          refine ⟨by simp, ?_⟩
          simp only [List.getD_cons_succ, List.getD_cons_zero]
          simp [entryOf, h]
        · intro e he
          rw [Nat.add_zero, h] at he
          cases he
      | succ k' =>
        have hk' : k' < tail.length := by simpa using hk
        have hidx : i + (k' + 1) = (i + 1) + k' := by omega
        obtain ⟨hok, herr⟩ := ihspec k' hk'
        constructor
        · intro a' ha'
          rw [hidx] at ha'
          obtain ⟨hprog, hres⟩ := hok a' ha'
          simp only [List.getD_cons_succ] at hprog hres ⊢
          refine ⟨by rw [hprog, ← hidx], ?_⟩
          rw [hres]
          simp [entryOf, h, List.append_assoc]
        · intro e he
          rw [hidx] at he
          obtain ⟨hprog, hres⟩ := herr e he
          simp only [List.getD_cons_succ] at hprog hres ⊢
          exact ⟨hprog, hres⟩
    | error e0 =>
      rw [auditLoop_cons_error h]
      obtain ⟨ihlen, ihspec⟩ := ih (i + 1)
        { s with current_status := auditMsg i nn }
        (acc ++ [{ image_number := i, original_url := u, audit := none,
                   error := some e0 }])
      refine ⟨by simpa using ihlen, ?_⟩
      intro k hk
      cases k with
      | zero =>
        constructor
        · intro a' ha'
          rw [Nat.add_zero, h] at ha'
          cases ha'
        · intro e he
          exact ⟨rfl, rfl⟩
      | succ k' =>
        have hk' : k' < tail.length := by simpa using hk
        have hidx : i + (k' + 1) = (i + 1) + k' := by omega
        obtain ⟨hok, herr⟩ := ihspec k' hk'
        constructor
        · intro a' ha'
          rw [hidx] at ha'
          obtain ⟨hprog, hres⟩ := hok a' ha'
          simp only [List.getD_cons_succ] at hprog hres ⊢
          refine ⟨by rw [hprog, ← hidx], ?_⟩
          rw [hres]
          simp [entryOf, h, List.append_assoc]
        · intro e he
          rw [hidx] at he
          obtain ⟨hprog, hres⟩ := herr e he
          simp only [List.getD_cons_succ] at hprog hres ⊢
          exact ⟨hprog, hres⟩

/-- Per-iteration behaviour of the generation loop on the chain of
end-of-iteration states: an eligible item whose Generator call returns
(rather than raises) recomputes `generation_progress` by the floor
formula and republishes the full-length list; a skipped item (failed
audit or empty prompts) or a raised Generator call leaves the published
progress and results exactly as they were. -/
lemma genLoop_after_spec (genOf : Nat → Except String (Option (List Nat))) (nn : Nat) :
    ∀ (k i : Nat) (rs : List ItemResult) (s : JobState),
      (genLoop genOf nn (idxFrom i k) rs s).after.length = k ∧
      ∀ j, j < k →
        (∀ a, (rs.getD (i + j - 1) default).audit = some a →
          a.image_gen_prompt ≠ "" → a.mask_prompt ≠ "" →
          ∀ ob, genOf (i + j) = .ok ob →
          ((s :: (genLoop genOf nn (idxFrom i k) rs s).after).getD (j + 1)
              default).generation_progress = (i + j) * 100 / nn ∧
          ((s :: (genLoop genOf nn (idxFrom i k) rs s).after).getD (j + 1)
              default).results.length = rs.length) ∧
        (((rs.getD (i + j - 1) default).audit = none ∨
            (∃ a, (rs.getD (i + j - 1) default).audit = some a ∧
              (a.image_gen_prompt = "" ∨ a.mask_prompt = "")) ∨
            (∃ e, genOf (i + j) = .error e)) →
          ((s :: (genLoop genOf nn (idxFrom i k) rs s).after).getD (j + 1)
              default).generation_progress
            = ((s :: (genLoop genOf nn (idxFrom i k) rs s).after).getD j
              default).generation_progress ∧
          ((s :: (genLoop genOf nn (idxFrom i k) rs s).after).getD (j + 1)
              default).results
            = ((s :: (genLoop genOf nn (idxFrom i k) rs s).after).getD j
              default).results) := by
  intro k
  induction k with
  | zero =>
    intro i rs s
    exact ⟨rfl, fun j hj => absurd hj (Nat.not_lt_zero j)⟩
  | succ k' ih =>
    intro i rs s
    rw [show idxFrom i (k' + 1) = i :: idxFrom (i + 1) k' from rfl]
    cases ha : (rs.getD (i - 1) default).audit with
    | none =>
      rw [genLoop_cons_skip ha]
      obtain ⟨ihlen, ihspec⟩ := ih (i + 1) rs s
      refine ⟨by simpa using ihlen, ?_⟩
      intro j hj
      cases j with
      | zero =>
        constructor
        · intro a haud
          rw [Nat.add_zero, ha] at haud
          cases haud
        · intro _
          exact ⟨rfl, rfl⟩
      | succ j' =>
        have hj' : j' < k' := by omega
        have hidx : i + (j' + 1) = (i + 1) + j' := by omega
        obtain ⟨hupd, hskip⟩ := ihspec j' hj'
        constructor
        · intro a haud hp1 hp2 ob hob
          rw [hidx] at haud hob
          obtain ⟨hprog, hlen⟩ := hupd a haud hp1 hp2 ob hob
          simp only [List.getD_cons_succ] at hprog hlen ⊢
          exact ⟨by rw [hprog, ← hidx], hlen⟩
        · intro hcond
          rw [hidx] at hcond
          obtain ⟨hprog, hres⟩ := hskip hcond
          simp only [List.getD_cons_succ] at hprog hres ⊢
          exact ⟨hprog, hres⟩
    | some a0 =>
      by_cases hp : a0.image_gen_prompt = "" ∨ a0.mask_prompt = ""
      · rw [genLoop_cons_noPrompts ha hp]
        obtain ⟨ihlen, ihspec⟩ := ih (i + 1) rs
          { s with current_status := genMsg i nn }
        refine ⟨by simpa using ihlen, ?_⟩
        intro j hj
        cases j with
        | zero =>
          constructor
          · intro a haud hp1 hp2 ob hob
            rw [Nat.add_zero, ha] at haud
            obtain rfl := (Option.some.injEq _ _ ▸ haud).symm
            rcases hp with hp' | hp'
            · exact absurd hp' hp1
            · exact absurd hp' hp2
          · intro _
            exact ⟨rfl, rfl⟩
        | succ j' =>
          have hj' : j' < k' := by omega
          have hidx : i + (j' + 1) = (i + 1) + j' := by omega
          obtain ⟨hupd, hskip⟩ := ihspec j' hj'
          constructor
          · intro a haud hp1 hp2 ob hob
            rw [hidx] at haud hob
            obtain ⟨hprog, hlen⟩ := hupd a haud hp1 hp2 ob hob
            simp only [List.getD_cons_succ] at hprog hlen ⊢
            exact ⟨by rw [hprog, ← hidx], hlen⟩
          · intro hcond
            rw [hidx] at hcond
            obtain ⟨hprog, hres⟩ := hskip hcond
            simp only [List.getD_cons_succ] at hprog hres ⊢
            exact ⟨hprog, hres⟩
      · cases hg : genOf i with
        | error e0 =>
          rw [genLoop_cons_genError ha hp hg]
          obtain ⟨ihlen, ihspec⟩ := ih (i + 1) rs
            { s with current_status := genMsg i nn }
          refine ⟨by simpa using ihlen, ?_⟩
          intro j hj
          cases j with
          | zero =>
            constructor
            · intro a haud hp1 hp2 ob hob
              rw [Nat.add_zero, hg] at hob
              cases hob
            · intro _
              exact ⟨rfl, rfl⟩
          | succ j' =>
            have hj' : j' < k' := by omega
            have hidx : i + (j' + 1) = (i + 1) + j' := by omega
            obtain ⟨hupd, hskip⟩ := ihspec j' hj'
            constructor
            · intro a haud hp1 hp2 ob hob
              rw [hidx] at haud hob
              obtain ⟨hprog, hlen⟩ := hupd a haud hp1 hp2 ob hob
              simp only [List.getD_cons_succ] at hprog hlen ⊢
              exact ⟨by rw [hprog, ← hidx], hlen⟩
            · intro hcond
              rw [hidx] at hcond
              obtain ⟨hprog, hres⟩ := hskip hcond
              simp only [List.getD_cons_succ] at hprog hres ⊢
              exact ⟨hprog, hres⟩
        | ok ob0 =>
          have hcontr0 : ∀ hcond : (rs.getD (i + 0 - 1) default).audit = none ∨
              (∃ a, (rs.getD (i + 0 - 1) default).audit = some a ∧
                (a.image_gen_prompt = "" ∨ a.mask_prompt = "")) ∨
              (∃ e, genOf (i + 0) = .error e), False := by
            intro hcond
            rw [Nat.add_zero] at hcond
            rcases hcond with h' | ⟨b, hb, hbp⟩ | ⟨e, he⟩
            · rw [ha] at h'; cases h'
            · rw [ha] at hb
              obtain rfl := (Option.some.injEq _ _ ▸ hb).symm
              exact hp hbp
            · rw [hg] at he; cases he
          cases ob0 with
          | none =>
            rw [genLoop_cons_genNone ha hp hg]
            obtain ⟨ihlen, ihspec⟩ := ih (i + 1) rs
              { s with current_status := genMsg i nn,
                       generation_progress := i * 100 / nn, results := rs }
            refine ⟨by simpa using ihlen, ?_⟩
            intro j hj
            cases j with
            | zero =>
              constructor
              · intro a haud hp1 hp2 ob hob
                exact ⟨by simp, by simp⟩
              · intro hcond
                exact absurd hcond (fun h => hcontr0 h)
            | succ j' =>
              have hj' : j' < k' := by omega
              have hidx : i + (j' + 1) = (i + 1) + j' := by omega
              obtain ⟨hupd, hskip⟩ := ihspec j' hj'
              constructor
              · intro a haud hp1 hp2 ob hob
                rw [hidx] at haud hob
                obtain ⟨hprog, hlen⟩ := hupd a haud hp1 hp2 ob hob
                simp only [List.getD_cons_succ] at hprog hlen ⊢
                exact ⟨by rw [hprog, ← hidx], hlen⟩
              · intro hcond
                rw [hidx] at hcond
                obtain ⟨hprog, hres⟩ := hskip hcond
                simp only [List.getD_cons_succ] at hprog hres ⊢
                exact ⟨hprog, hres⟩
          | some bs =>
            cases hbs : bs.isEmpty with
            | true =>
              rw [genLoop_cons_genEmpty ha hp hg hbs]
              obtain ⟨ihlen, ihspec⟩ := ih (i + 1) rs
                { s with current_status := genMsg i nn,
                         generation_progress := i * 100 / nn, results := rs }
              refine ⟨by simpa using ihlen, ?_⟩
              intro j hj
              cases j with
              | zero =>
                constructor
                · intro a haud hp1 hp2 ob hob
                  exact ⟨by simp, by simp⟩
                · intro hcond
                  exact absurd hcond (fun h => hcontr0 h)
              | succ j' =>
                have hj' : j' < k' := by omega
                have hidx : i + (j' + 1) = (i + 1) + j' := by omega
                obtain ⟨hupd, hskip⟩ := ihspec j' hj'
                constructor
                · intro a haud hp1 hp2 ob hob
                  rw [hidx] at haud hob
                  obtain ⟨hprog, hlen⟩ := hupd a haud hp1 hp2 ob hob
                  simp only [List.getD_cons_succ] at hprog hlen ⊢
                  exact ⟨by rw [hprog, ← hidx], hlen⟩
                · intro hcond
                  rw [hidx] at hcond
                  obtain ⟨hprog, hres⟩ := hskip hcond
                  simp only [List.getD_cons_succ] at hprog hres ⊢
                  exact ⟨hprog, hres⟩
            | false =>
              rw [genLoop_cons_genBytes ha hp hg hbs]
              obtain ⟨ihlen, ihspec⟩ := ih (i + 1)
                (setArtifact rs i (encodeArtifact bs))
                { s with current_status := genMsg i nn,
                         generation_progress := i * 100 / nn,
                         results := setArtifact rs i (encodeArtifact bs) }
              refine ⟨by simpa using ihlen, ?_⟩
              intro j hj
              cases j with
              | zero =>
                constructor
                · intro a haud hp1 hp2 ob hob
                  refine ⟨by simp, ?_⟩
                  simp only [List.getD_cons_succ, List.getD_cons_zero]
                  exact setArtifact_length rs i (encodeArtifact bs)
                · intro hcond
                  exact absurd hcond (fun h => hcontr0 h)
              | succ j' =>
                have hj' : j' < k' := by omega
                have hidx : i + (j' + 1) = (i + 1) + j' := by omega
                obtain ⟨hupd, hskip⟩ := ihspec j' hj'
                constructor
                · intro a haud hp1 hp2 ob hob
                  rw [hidx] at haud hob
                  rw [← setArtifact_audit rs i (encodeArtifact bs) (i + 1 + j' - 1)]
                    at haud
                  obtain ⟨hprog, hlen⟩ := hupd a haud hp1 hp2 ob hob
                  rw [setArtifact_length] at hlen
                  simp only [List.getD_cons_succ] at hprog hlen ⊢
                  exact ⟨by rw [hprog, ← hidx], hlen⟩
                · intro hcond
                  rw [hidx] at hcond
                  have hcond' : (((setArtifact rs i (encodeArtifact bs)).getD
                        (i + 1 + j' - 1) default).audit = none) ∨
                      (∃ a, ((setArtifact rs i (encodeArtifact bs)).getD
                          (i + 1 + j' - 1) default).audit = some a ∧
                        (a.image_gen_prompt = "" ∨ a.mask_prompt = "")) ∨
                      (∃ e, genOf (i + 1 + j') = .error e) := by
                    rw [setArtifact_audit rs i (encodeArtifact bs) (i + 1 + j' - 1)]
                    exact hcond
                  obtain ⟨hprog, hres⟩ := hskip hcond'
                  simp only [List.getD_cons_succ] at hprog hres ⊢
                  exact ⟨hprog, hres⟩

/-- C3 counterexample: two items, the Auditor raising on item 1; after
processing item 1 the progress counter is still 0 — not the claimed
`floor(1/2*100) = 50` — and the results list was not republished. -/
theorem c3_counterexample_failed_item_not_republished :
    (((listingStartState listingTwoPhotos 2 ::
        (processListingJob (.ok listingTwoPhotos) auditFailsFirst
          genAlwaysBytes 5).auditAfter).getD 1 default).audit_progress = 0) ∧
    (((listingStartState listingTwoPhotos 2 ::
        (processListingJob (.ok listingTwoPhotos) auditFailsFirst
          genAlwaysBytes 5).auditAfter).getD 1 default).results = []) ∧
    ¬((((listingStartState listingTwoPhotos 2 ::
        (processListingJob (.ok listingTwoPhotos) auditFailsFirst
          genAlwaysBytes 5).auditAfter).getD 1 default).audit_progress = 1 * 100 / 2) ∧
      (((listingStartState listingTwoPhotos 2 ::
        (processListingJob (.ok listingTwoPhotos) auditFailsFirst
          genAlwaysBytes 5).auditAfter).getD 1 default).results.length = 1)) := by
  refine ⟨by decide, by decide, by decide⟩

/-- C3 amended: in the audit loop only a successful item recomputes
`auditProgress = floor(i/N*100)` and republishes the grown (i-entry)
results list — a failed item leaves both untouched; in the generation
loop only an eligible item whose Generator call returns recomputes
`generationProgress` by the same formula and republishes the
full-length list — skipped or raising items leave both untouched. -/
theorem c3_amended_updates_only_on_success (bi : BasicInfo) (nb : NeighborhoodInfo)
    (u : String) (us : List String) (auditOf : Nat → Except String AuditData)
    (genOf : Nat → Except String (Option (List Nat))) (maxImages : Nat) :
    (∀ k, k < ((u :: us).take maxImages).length →
      (∀ a, auditRoomOutcome (auditOf (k + 1)) = .ok a →
        (((listingStartState ⟨bi, nb, u :: us⟩ ((u :: us).take maxImages).length ::
            (processListingJob (.ok ⟨bi, nb, u :: us⟩) auditOf genOf
              maxImages).auditAfter).getD (k + 1) default).audit_progress
          = (k + 1) * 100 / ((u :: us).take maxImages).length) ∧
        (((listingStartState ⟨bi, nb, u :: us⟩ ((u :: us).take maxImages).length ::
            (processListingJob (.ok ⟨bi, nb, u :: us⟩) auditOf genOf
              maxImages).auditAfter).getD (k + 1) default).results.length = k + 1)) ∧
      (∀ e, auditRoomOutcome (auditOf (k + 1)) = .error e →
        (((listingStartState ⟨bi, nb, u :: us⟩ ((u :: us).take maxImages).length ::
            (processListingJob (.ok ⟨bi, nb, u :: us⟩) auditOf genOf
              maxImages).auditAfter).getD (k + 1) default).audit_progress
          = ((listingStartState ⟨bi, nb, u :: us⟩ ((u :: us).take maxImages).length ::
            (processListingJob (.ok ⟨bi, nb, u :: us⟩) auditOf genOf
              maxImages).auditAfter).getD k default).audit_progress) ∧
        (((listingStartState ⟨bi, nb, u :: us⟩ ((u :: us).take maxImages).length ::
            (processListingJob (.ok ⟨bi, nb, u :: us⟩) auditOf genOf
              maxImages).auditAfter).getD (k + 1) default).results
          = ((listingStartState ⟨bi, nb, u :: us⟩ ((u :: us).take maxImages).length ::
            (processListingJob (.ok ⟨bi, nb, u :: us⟩) auditOf genOf
              maxImages).auditAfter).getD k default).results))) ∧
    (∀ j, j < ((u :: us).take maxImages).length →
      (∀ a, (((listingAuditPhase auditOf ⟨bi, nb, u :: us⟩ maxImages).acc.getD j
            default).audit = some a) →
        a.image_gen_prompt ≠ "" → a.mask_prompt ≠ "" →
        ∀ ob, genOf (j + 1) = .ok ob →
        ((((listingAuditPhase auditOf ⟨bi, nb, u :: us⟩ maxImages).state ::
            (processListingJob (.ok ⟨bi, nb, u :: us⟩) auditOf genOf
              maxImages).genAfter).getD (j + 1) default).generation_progress
          = (j + 1) * 100 / ((u :: us).take maxImages).length) ∧
        ((((listingAuditPhase auditOf ⟨bi, nb, u :: us⟩ maxImages).state ::
            (processListingJob (.ok ⟨bi, nb, u :: us⟩) auditOf genOf
              maxImages).genAfter).getD (j + 1) default).results.length
          = ((u :: us).take maxImages).length)) ∧
      (((((listingAuditPhase auditOf ⟨bi, nb, u :: us⟩ maxImages).acc.getD j
            default).audit = none) ∨
        (∃ a, (((listingAuditPhase auditOf ⟨bi, nb, u :: us⟩ maxImages).acc.getD j
            default).audit = some a) ∧
          (a.image_gen_prompt = "" ∨ a.mask_prompt = "")) ∨
        (∃ e, genOf (j + 1) = .error e)) →
        ((((listingAuditPhase auditOf ⟨bi, nb, u :: us⟩ maxImages).state ::
            (processListingJob (.ok ⟨bi, nb, u :: us⟩) auditOf genOf
              maxImages).genAfter).getD (j + 1) default).generation_progress
          = (((listingAuditPhase auditOf ⟨bi, nb, u :: us⟩ maxImages).state ::
            (processListingJob (.ok ⟨bi, nb, u :: us⟩) auditOf genOf
              maxImages).genAfter).getD j default).generation_progress) ∧
        ((((listingAuditPhase auditOf ⟨bi, nb, u :: us⟩ maxImages).state ::
            (processListingJob (.ok ⟨bi, nb, u :: us⟩) auditOf genOf
              maxImages).genAfter).getD (j + 1) default).results
          = (((listingAuditPhase auditOf ⟨bi, nb, u :: us⟩ maxImages).state ::
            (processListingJob (.ok ⟨bi, nb, u :: us⟩) auditOf genOf
              maxImages).genAfter).getD j default).results))) := by
  obtain ⟨hstatus, hres, haccEq, hcallsEq, hAA, hGA⟩ :=
    listing_ok_decompose bi nb u us auditOf genOf maxImages
  have haccA : (listingAuditPhase auditOf ⟨bi, nb, u :: us⟩ maxImages).acc
      = (enum1 1 ((u :: us).take maxImages)).map (entryOf auditOf) := by
    simpa using listingAuditPhase_acc auditOf ⟨bi, nb, u :: us⟩ maxImages
  have haccLen : (listingAuditPhase auditOf ⟨bi, nb, u :: us⟩ maxImages).acc.length
      = ((u :: us).take maxImages).length := by
    rw [haccA]; simp [enum1_length]
  have hAP : listingAuditPhase auditOf ⟨bi, nb, u :: us⟩ maxImages
      = auditLoop auditOf ((u :: us).take maxImages).length
          (enum1 1 ((u :: us).take maxImages))
          (listingStartState ⟨bi, nb, u :: us⟩ ((u :: us).take maxImages).length) []
      := rfl
  have hGP : listingGenPhase auditOf genOf ⟨bi, nb, u :: us⟩ maxImages
      = genLoop genOf ((u :: us).take maxImages).length
          (idxFrom 1 (listingAuditPhase auditOf ⟨bi, nb, u :: us⟩ maxImages).acc.length)
          (listingAuditPhase auditOf ⟨bi, nb, u :: us⟩ maxImages).acc
          (listingAuditPhase auditOf ⟨bi, nb, u :: us⟩ maxImages).state := rfl
  constructor
  · intro k hk
    obtain ⟨hlenA, hspecA⟩ := auditLoop_after_spec auditOf
      ((u :: us).take maxImages).length ((u :: us).take maxImages) 1
      (listingStartState ⟨bi, nb, u :: us⟩ ((u :: us).take maxImages).length) []
    obtain ⟨hok, herr⟩ := hspecA k hk
    have hi1 : 1 + k = k + 1 := Nat.add_comm 1 k
    rw [hAA, hAP]
    constructor
    · intro a ha
      rw [← hi1] at ha
      obtain ⟨hprog, hresk⟩ := hok a ha
      constructor
      · rw [hprog, hi1]
      · rw [hresk]
        have hk2 : k < min maxImages (u :: us).length := by
          simpa [List.length_take] using hk
        simp only [List.nil_append, List.length_map, List.length_take, enum1_length]
        omega
    · intro e he
      rw [← hi1] at he
      exact herr e he
  · intro j hj
    obtain ⟨hlenG, hspecG⟩ := genLoop_after_spec genOf
      ((u :: us).take maxImages).length
      (listingAuditPhase auditOf ⟨bi, nb, u :: us⟩ maxImages).acc.length 1
      (listingAuditPhase auditOf ⟨bi, nb, u :: us⟩ maxImages).acc
      (listingAuditPhase auditOf ⟨bi, nb, u :: us⟩ maxImages).state
    have hj' : j < (listingAuditPhase auditOf ⟨bi, nb, u :: us⟩ maxImages).acc.length := by
      rw [haccLen]; exact hj
    obtain ⟨hupd, hskip⟩ := hspecG j hj'
    have hi1 : 1 + j = j + 1 := Nat.add_comm 1 j
    have hindex : 1 + j - 1 = j := by omega
    rw [hGA, hGP]
    constructor
    · intro a ha hp1 hp2 ob hob
      rw [← hindex] at ha
      rw [← hi1] at hob
      obtain ⟨hprog, hlen⟩ := hupd a ha hp1 hp2 ob hob
      constructor
      · rw [hprog, hi1]
      · rw [hlen, haccLen]
    · intro hcond
      have hcond' : ((((listingAuditPhase auditOf ⟨bi, nb, u :: us⟩
            maxImages).acc.getD (1 + j - 1) default).audit = none) ∨
          (∃ a, (((listingAuditPhase auditOf ⟨bi, nb, u :: us⟩
            maxImages).acc.getD (1 + j - 1) default).audit = some a) ∧
            (a.image_gen_prompt = "" ∨ a.mask_prompt = "")) ∨
          (∃ e, genOf (1 + j) = .error e)) := by
        rw [hindex, hi1]
        exact hcond
      exact hskip hcond'

/-- C3 witness: in the two-item run where item 1's audit raises and item
2 succeeds, processing item 2 sets `audit_progress = floor(2/2*100)` and
republishes both accumulated entries. -/
theorem c3_witness :
    (((listingStartState ⟨{}, {}, "http://img/1.jpg" :: ["http://img/2.jpg"]⟩ 2 ::
        (processListingJob (.ok ⟨{}, {}, "http://img/1.jpg" :: ["http://img/2.jpg"]⟩)
          auditFailsFirst genAlwaysBytes 5).auditAfter).getD 2 default).audit_progress
      = 2 * 100 / 2) ∧
    (((listingStartState ⟨{}, {}, "http://img/1.jpg" :: ["http://img/2.jpg"]⟩ 2 ::
        (processListingJob (.ok ⟨{}, {}, "http://img/1.jpg" :: ["http://img/2.jpg"]⟩)
          auditFailsFirst genAlwaysBytes 5).auditAfter).getD 2 default).results.length
      = 2) := by
  have h := c3_amended_updates_only_on_success {} {} "http://img/1.jpg"
    ["http://img/2.jpg"] auditFailsFirst genAlwaysBytes 5
  have h2 := (h.1 1 (by decide)).1
    (validateFeasibility (validateAuditResponse barrierAudit)) rfl
  exact ⟨h2.1, h2.2⟩

/-! ### C2 — progress monotonicity and the 100-iff-completed invariant -/

/-- Both progress counters are no smaller in `b` than in `a`. -/
def progLeB (a b : JobState) : Bool :=
  decide (a.audit_progress ≤ b.audit_progress) &&
    decide (a.generation_progress ≤ b.generation_progress)

/-- Adjacent-pair monotonicity of both progress counters along a list of
observable states. -/
def progressMonoB : List JobState → Bool
  | a :: b :: rest => progLeB a b && progressMonoB (b :: rest)
  | _ => true

/-- `auditProgress = 100 ∧ generationProgress = 100` holds exactly when
the status is `completed`. -/
def hundredOk (s : JobState) : Bool :=
  (decide (s.audit_progress = 100) && decide (s.generation_progress = 100))
    == decide (s.status = JobStatus.completed)

lemma progLeB_trans {a b c : JobState} (h1 : progLeB a b = true)
    (h2 : progLeB b c = true) : progLeB a c = true := by
  simp only [progLeB, Bool.and_eq_true, decide_eq_true_eq] at h1 h2 ⊢
  omega

lemma progLeB_refl (a : JobState) : progLeB a a = true := by
  simp [progLeB]

lemma progressMonoB_cons₂ (a b : JobState) (l : List JobState) :
    progressMonoB (a :: b :: l) = (progLeB a b && progressMonoB (b :: l)) := rfl

lemma progressMonoB_single (a : JobState) : progressMonoB [a] = true := rfl

/-- Replacing the head with a progress-smaller state keeps the chain
monotone. -/
lemma progressMonoB_head_weaken {w v : JobState} {l : List JobState}
    (hwv : progLeB w v = true) (h : progressMonoB (v :: l) = true) :
    progressMonoB (w :: l) = true := by
  cases l with
  | nil => rfl
  | cons b l' =>
    rw [progressMonoB_cons₂] at h ⊢
    rw [Bool.and_eq_true] at h ⊢
    exact ⟨progLeB_trans hwv h.1, h.2⟩

/-- Gluing two monotone chains that meet at an intermediate state `m`
which is dropped from the combined list. -/
lemma progressMonoB_glue (m : JobState) :
    ∀ (l : List JobState) (x : JobState) (r : List JobState),
      progressMonoB (x :: l ++ [m]) = true → progressMonoB (m :: r) = true →
      progressMonoB (x :: l ++ r) = true := by
  intro l
  induction l with
  | nil =>
    intro x r h1 h2
    have h1' : progressMonoB (x :: [m]) = true := h1
    rw [progressMonoB_cons₂, Bool.and_eq_true] at h1'
    show progressMonoB (x :: r) = true
    exact progressMonoB_head_weaken h1'.1 h2
  | cons a l' ih =>
    intro x r h1 h2
    have h1' : progressMonoB (x :: a :: (l' ++ [m])) = true := h1
    rw [progressMonoB_cons₂, Bool.and_eq_true] at h1'
    show progressMonoB (x :: a :: (l' ++ r)) = true
    rw [progressMonoB_cons₂, Bool.and_eq_true]
    exact ⟨h1'.1, ih a r h1'.2 h2⟩

/-- Replacing the head with any state carrying the same counters keeps a
chain monotone. -/
lemma progressMonoB_head_congr {w v : JobState} {l : List JobState}
    (ha : w.audit_progress = v.audit_progress)
    (hg : w.generation_progress = v.generation_progress)
    (h : progressMonoB (v :: l) = true) : progressMonoB (w :: l) = true := by
  refine progressMonoB_head_weaken ?_ h
  simp [progLeB, ha, hg]

lemma prog_mono_num {m m' nn : Nat} (h : m ≤ m') : m * 100 / nn ≤ m' * 100 / nn :=
  Nat.div_le_div_right (Nat.mul_le_mul_right 100 h)

lemma prog_le_100 {m nn : Nat} (h : m ≤ nn) : m * 100 / nn ≤ 100 := by
  rcases Nat.eq_zero_or_pos nn with rfl | hpos
  · interval_cases m
    simp
  · have : m * 100 ≤ 100 * nn := by
      calc m * 100 ≤ nn * 100 := Nat.mul_le_mul_right 100 h
        _ = 100 * nn := Nat.mul_comm nn 100
    calc m * 100 / nn ≤ 100 * nn / nn := Nat.div_le_div_right this
      _ = 100 := Nat.mul_div_cancel 100 hpos

/-- Through the audit loop every pollable snapshot satisfies the
100-iff-completed invariant, the chain of states is monotone in both
counters, and the loop leaves a processing state with
`generation_progress = 0` and a bounded `audit_progress`. -/
lemma auditLoop_c2 (auditOf : Nat → Except String AuditData) (nn : Nat) :
    ∀ (us : List String) (i : Nat) (s : JobState) (acc : List ItemResult),
      1 ≤ i → s.status = .processing → s.generation_progress = 0 →
      s.audit_progress ≤ (i - 1) * 100 / nn →
      progressMonoB (s :: ((auditLoop auditOf nn (enum1 i us) s acc).snaps ++
          [(auditLoop auditOf nn (enum1 i us) s acc).state])) = true ∧
      (auditLoop auditOf nn (enum1 i us) s acc).snaps.all hundredOk = true ∧
      (auditLoop auditOf nn (enum1 i us) s acc).state.status = .processing ∧
      (auditLoop auditOf nn (enum1 i us) s acc).state.generation_progress = 0 ∧
      (auditLoop auditOf nn (enum1 i us) s acc).state.audit_progress
        ≤ (i - 1 + us.length) * 100 / nn := by
  intro us
  induction us with
  | nil =>
    intro i s acc hi hst hgen haud
    refine ⟨?_, rfl, hst, hgen, by simpa using haud⟩
    show progressMonoB (s :: [s]) = true
    rw [progressMonoB_cons₂]
    simp [progLeB_refl, progressMonoB_single]
  | cons u tail ih =>
    intro i s acc hi hst hgen haud
    rw [show enum1 i (u :: tail) = (i, u) :: enum1 (i + 1) tail from rfl]
    cases h : auditRoomOutcome (auditOf i) with
    | ok a =>
      rw [auditLoop_cons_ok h]
      obtain ⟨ihmono, ihall, ihst, ihgen, ihaud⟩ := ih (i + 1)
        { s with current_status := auditMsg i nn, audit_progress := i * 100 / nn,
                 results := acc ++ [{ image_number := i, original_url := u,
                                      audit := some a }] }
        (acc ++ [{ image_number := i, original_url := u, audit := some a }])
        (by omega) hst hgen (by simp)
      have hs1s2 : progLeB { s with current_status := auditMsg i nn }
          { s with current_status := auditMsg i nn, audit_progress := i * 100 / nn,
                   results := acc ++ [{ image_number := i, original_url := u,
                                        audit := some a }] } = true := by
        simp only [progLeB, Bool.and_eq_true, decide_eq_true_eq]
        refine ⟨?_, le_refl _⟩
        calc s.audit_progress ≤ (i - 1) * 100 / nn := haud
          _ ≤ i * 100 / nn := prog_mono_num (by omega)
      refine ⟨?_, ?_, ihst, ihgen, ?_⟩
      · show progressMonoB (s :: { s with current_status := auditMsg i nn } ::
          ((auditLoop auditOf nn (enum1 (i + 1) tail) _ _).snaps ++
            [(auditLoop auditOf nn (enum1 (i + 1) tail) _ _).state])) = true
        rw [progressMonoB_cons₂, Bool.and_eq_true]
        constructor
        · simp [progLeB]
        · exact progressMonoB_head_weaken hs1s2 ihmono
      · show (({ s with current_status := auditMsg i nn } : JobState) ::
            (auditLoop auditOf nn (enum1 (i + 1) tail) _ _).snaps).all hundredOk = true
        rw [List.all_cons, Bool.and_eq_true]
        refine ⟨?_, ihall⟩
        simp [hundredOk, hst, hgen]
      · have heq : i - 1 + (u :: tail).length = i + 1 - 1 + tail.length := by
          simp only [List.length_cons]
          omega
        rw [heq]
        exact ihaud
    | error e =>
      rw [auditLoop_cons_error h]
      obtain ⟨ihmono, ihall, ihst, ihgen, ihaud⟩ := ih (i + 1)
        { s with current_status := auditMsg i nn }
        (acc ++ [{ image_number := i, original_url := u, audit := none,
                   error := some e }])
        (by omega) hst hgen
        (by
          show s.audit_progress ≤ (i + 1 - 1) * 100 / nn
          calc s.audit_progress ≤ (i - 1) * 100 / nn := haud
            _ ≤ (i + 1 - 1) * 100 / nn := prog_mono_num (by omega))
      refine ⟨?_, ?_, ihst, ihgen, ?_⟩
      · show progressMonoB (s :: { s with current_status := auditMsg i nn } ::
          ((auditLoop auditOf nn (enum1 (i + 1) tail) _ _).snaps ++
            [(auditLoop auditOf nn (enum1 (i + 1) tail) _ _).state])) = true
        rw [progressMonoB_cons₂, Bool.and_eq_true]
        exact ⟨by simp [progLeB], ihmono⟩
      · show (({ s with current_status := auditMsg i nn } : JobState) ::
            (auditLoop auditOf nn (enum1 (i + 1) tail) _ _).snaps).all hundredOk = true
        rw [List.all_cons, Bool.and_eq_true]
        refine ⟨?_, ihall⟩
        simp [hundredOk, hst, hgen]
      · have heq : i - 1 + (u :: tail).length = i + 1 - 1 + tail.length := by
          simp only [List.length_cons]
          omega
        rw [heq]
        exact ihaud

lemma prog_lt_100 {m nn : Nat} (h : m < nn) : m * 100 / nn < 100 := by
  have hpos : 0 < nn := by omega
  rw [Nat.div_lt_iff_lt_mul hpos]
  calc m * 100 < nn * 100 := by
        exact Nat.mul_lt_mul_of_pos_right h (by omega)
    _ = 100 * nn := Nat.mul_comm nn 100

/-- Through the generation loop every pollable snapshot satisfies the
100-iff-completed invariant (its `generation_progress` is still below
100), the chain of states is monotone, `audit_progress` is untouched,
and the final `generation_progress` stays bounded by the floor
formula. -/
lemma genLoop_c2 (genOf : Nat → Except String (Option (List Nat))) (nn : Nat) :
    ∀ (k i : Nat) (rs : List ItemResult) (s : JobState),
      1 ≤ i → i - 1 + k ≤ nn →
      s.status = .processing → s.audit_progress ≤ 100 →
      s.generation_progress ≤ (i - 1) * 100 / nn →
      progressMonoB (s :: ((genLoop genOf nn (idxFrom i k) rs s).snaps ++
          [(genLoop genOf nn (idxFrom i k) rs s).state])) = true ∧
      (genLoop genOf nn (idxFrom i k) rs s).snaps.all hundredOk = true ∧
      (genLoop genOf nn (idxFrom i k) rs s).state.status = .processing ∧
      (genLoop genOf nn (idxFrom i k) rs s).state.audit_progress = s.audit_progress ∧
      (genLoop genOf nn (idxFrom i k) rs s).state.generation_progress
        ≤ (i - 1 + k) * 100 / nn := by
  intro k
  induction k with
  | zero =>
    intro i rs s hi hk hst haud hgen
    refine ⟨?_, rfl, hst, rfl, by simpa using hgen⟩
    show progressMonoB (s :: [s]) = true
    rw [progressMonoB_cons₂]
    simp [progLeB_refl, progressMonoB_single]
  | succ k' ih =>
    intro i rs s hi hk hst haud hgen
    rw [show idxFrom i (k' + 1) = i :: idxFrom (i + 1) k' from rfl]
    have hslt : s.generation_progress < 100 :=
      lt_of_le_of_lt hgen (prog_lt_100 (by omega))
    have hgen' : s.generation_progress ≤ (i + 1 - 1) * 100 / nn :=
      le_trans hgen (prog_mono_num (by omega))
    have heq : i - 1 + (k' + 1) = i + 1 - 1 + k' := by omega
    cases ha : (rs.getD (i - 1) default).audit with
    | none =>
      rw [genLoop_cons_skip ha]
      obtain ⟨ihmono, ihall, ihst, ihaud, ihgen⟩ :=
        ih (i + 1) rs s (by omega) (by omega) hst haud hgen'
      refine ⟨ihmono, ihall, ihst, ihaud, ?_⟩
      rw [heq]; exact ihgen
    | some a0 =>
      by_cases hp : a0.image_gen_prompt = "" ∨ a0.mask_prompt = ""
      · rw [genLoop_cons_noPrompts ha hp]
        obtain ⟨ihmono, ihall, ihst, ihaud, ihgen⟩ :=
          ih (i + 1) rs { s with current_status := genMsg i nn }
            (by omega) (by omega) hst haud hgen'
        refine ⟨?_, ihall, ihst, ihaud, ?_⟩
        · refine progressMonoB_head_weaken ?_ ihmono
          simp [progLeB]
        · rw [heq]; exact ihgen
      · cases hg : genOf i with
        | error e =>
          rw [genLoop_cons_genError ha hp hg]
          obtain ⟨ihmono, ihall, ihst, ihaud, ihgen⟩ :=
            ih (i + 1) rs { s with current_status := genMsg i nn }
              (by omega) (by omega) hst haud hgen'
          refine ⟨?_, ?_, ihst, ihaud, ?_⟩
          · show progressMonoB (s :: { s with current_status := genMsg i nn } ::
              ((genLoop genOf nn (idxFrom (i + 1) k') rs _).snaps ++
                [(genLoop genOf nn (idxFrom (i + 1) k') rs _).state])) = true
            rw [progressMonoB_cons₂, Bool.and_eq_true]
            exact ⟨by simp [progLeB], ihmono⟩
          · show (({ s with current_status := genMsg i nn } : JobState) ::
                (genLoop genOf nn (idxFrom (i + 1) k') rs _).snaps).all hundredOk = true
            rw [List.all_cons, Bool.and_eq_true]
            exact ⟨by simp [hundredOk, hst, Nat.ne_of_lt hslt], ihall⟩
          · rw [heq]; exact ihgen
        | ok ob =>
          have hs1s2 : ∀ rs2 : List ItemResult,
              progLeB { s with current_status := genMsg i nn }
                { s with current_status := genMsg i nn,
                         generation_progress := i * 100 / nn, results := rs2 } = true := by
            intro rs2
            simp only [progLeB, Bool.and_eq_true, decide_eq_true_eq]
            refine ⟨le_refl _, ?_⟩
            exact le_trans hgen (prog_mono_num (by omega))
          cases ob with
          | none =>
            rw [genLoop_cons_genNone ha hp hg]
            obtain ⟨ihmono, ihall, ihst, ihaud, ihgen⟩ :=
              ih (i + 1) rs
                { s with current_status := genMsg i nn,
                         generation_progress := i * 100 / nn, results := rs }
                (by omega) (by omega) hst haud (by simp)
            refine ⟨?_, ?_, ihst, ihaud, ?_⟩
            · show progressMonoB (s :: { s with current_status := genMsg i nn } ::
                ((genLoop genOf nn (idxFrom (i + 1) k') rs _).snaps ++
                  [(genLoop genOf nn (idxFrom (i + 1) k') rs _).state])) = true
              rw [progressMonoB_cons₂, Bool.and_eq_true]
              exact ⟨by simp [progLeB], progressMonoB_head_weaken (hs1s2 rs) ihmono⟩
            · show (({ s with current_status := genMsg i nn } : JobState) ::
                  (genLoop genOf nn (idxFrom (i + 1) k') rs _).snaps).all hundredOk = true
              rw [List.all_cons, Bool.and_eq_true]
              exact ⟨by simp [hundredOk, hst, Nat.ne_of_lt hslt], ihall⟩
            · rw [heq]; exact ihgen
          | some bs =>
            cases hbs : bs.isEmpty with
            | true =>
              rw [genLoop_cons_genEmpty ha hp hg hbs]
              obtain ⟨ihmono, ihall, ihst, ihaud, ihgen⟩ :=
                ih (i + 1) rs
                  { s with current_status := genMsg i nn,
                           generation_progress := i * 100 / nn, results := rs }
                  (by omega) (by omega) hst haud (by simp)
              refine ⟨?_, ?_, ihst, ihaud, ?_⟩
              · show progressMonoB (s :: { s with current_status := genMsg i nn } ::
                  ((genLoop genOf nn (idxFrom (i + 1) k') rs _).snaps ++
                    [(genLoop genOf nn (idxFrom (i + 1) k') rs _).state])) = true
                rw [progressMonoB_cons₂, Bool.and_eq_true]
                exact ⟨by simp [progLeB], progressMonoB_head_weaken (hs1s2 rs) ihmono⟩
              · show (({ s with current_status := genMsg i nn } : JobState) ::
                    (genLoop genOf nn (idxFrom (i + 1) k') rs _).snaps).all hundredOk = true
                rw [List.all_cons, Bool.and_eq_true]
                exact ⟨by simp [hundredOk, hst, Nat.ne_of_lt hslt], ihall⟩
              · rw [heq]; exact ihgen
            | false =>
              rw [genLoop_cons_genBytes ha hp hg hbs]
              obtain ⟨ihmono, ihall, ihst, ihaud, ihgen⟩ :=
                ih (i + 1) (setArtifact rs i (encodeArtifact bs))
                  { s with current_status := genMsg i nn,
                           generation_progress := i * 100 / nn,
                           results := setArtifact rs i (encodeArtifact bs) }
                  (by omega) (by omega) hst haud (by simp)
              refine ⟨?_, ?_, ihst, ihaud, ?_⟩
              · show progressMonoB (s :: { s with current_status := genMsg i nn } ::
                  ((genLoop genOf nn (idxFrom (i + 1) k')
                      (setArtifact rs i (encodeArtifact bs)) _).snaps ++
                    [(genLoop genOf nn (idxFrom (i + 1) k')
                      (setArtifact rs i (encodeArtifact bs)) _).state])) = true
                rw [progressMonoB_cons₂, Bool.and_eq_true]
                exact ⟨by simp [progLeB],
                  progressMonoB_head_weaken (hs1s2 (setArtifact rs i (encodeArtifact bs)))
                    ihmono⟩
              · show (({ s with current_status := genMsg i nn } : JobState) ::
                    (genLoop genOf nn (idxFrom (i + 1) k')
                      (setArtifact rs i (encodeArtifact bs)) _).snaps).all hundredOk
                    = true
                rw [List.all_cons, Bool.and_eq_true]
                exact ⟨by simp [hundredOk, hst, Nat.ne_of_lt hslt], ihall⟩
              · rw [heq]; exact ihgen

/-- The observable-state sequence of a listing job whose fetch succeeds
with at least one photo, phase by phase. -/
lemma listing_ok_states (bi : BasicInfo) (nb : NeighborhoodInfo) (u : String)
    (us : List String) (auditOf : Nat → Except String AuditData)
    (genOf : Nat → Except String (Option (List Nat))) (maxImages : Nat) :
    (processListingJob (.ok ⟨bi, nb, u :: us⟩) auditOf genOf maxImages).states =
      initialListingJob ::
      { initialListingJob with current_status := "Scraping listing..." } ::
      (((listingAuditPhase auditOf ⟨bi, nb, u :: us⟩ maxImages).snaps ++
        (listingGenPhase auditOf genOf ⟨bi, nb, u :: us⟩ maxImages).snaps) ++
        [{ (listingGenPhase auditOf genOf ⟨bi, nb, u :: us⟩ maxImages).state with
             status := .completed, current_status := "Completed",
             audit_progress := 100, generation_progress := 100 }]) := rfl

/-- C2: in both workers, `auditProgress` and `generationProgress` never
decrease across successive observable states, and every observable state
has both counters equal to 100 exactly when its status is `completed`. -/
theorem c2_progress_monotone_and_hundred_iff :
    (∀ (scrape : Except String ListingData) (auditOf : Nat → Except String AuditData)
        (genOf : Nat → Except String (Option (List Nat))) (maxImages : Nat),
      progressMonoB (processListingJob scrape auditOf genOf maxImages).states = true ∧
      (processListingJob scrape auditOf genOf maxImages).states.all hundredOk = true) ∧
    (∀ (auditOnce : Except String AuditData)
        (genOnce : Except String (Option (List Nat))) (url : String),
      progressMonoB (processSingleImageJob auditOnce genOnce url).states = true ∧
      (processSingleImageJob auditOnce genOnce url).states.all hundredOk = true) := by
  constructor
  · intro scrape auditOf genOf maxImages
    cases scrape with
    | error e =>
      constructor
      · show progressMonoB [initialListingJob,
          { initialListingJob with current_status := "Scraping listing..." },
          { initialListingJob with current_status := "Scraping listing...",
                                   status := .failed,
                                   error := some ("Failed to scrape listing: " ++ e) }]
          = true
        simp [progressMonoB, progLeB]
      · show List.all [initialListingJob,
          { initialListingJob with current_status := "Scraping listing..." },
          { initialListingJob with current_status := "Scraping listing...",
                                   status := .failed,
                                   error := some ("Failed to scrape listing: " ++ e) }]
          hundredOk = true
        simp [hundredOk, initialListingJob]
    | ok d =>
      obtain ⟨dbi, dnb, dphotos⟩ := d
      cases dphotos with
      | nil =>
        constructor
        · show progressMonoB [initialListingJob,
            { initialListingJob with current_status := "Scraping listing..." },
            { initialListingJob with
                current_status := "Scraping listing...",
                property_info := some (buildPropertyInfo ⟨dbi, dnb, []⟩),
                status := .failed, error := some "No images found in listing" }]
            = true
          simp [progressMonoB, progLeB]
        · show List.all [initialListingJob,
            { initialListingJob with current_status := "Scraping listing..." },
            { initialListingJob with
                current_status := "Scraping listing...",
                property_info := some (buildPropertyInfo ⟨dbi, dnb, []⟩),
                status := .failed, error := some "No images found in listing" }]
            hundredOk = true
          simp [hundredOk, initialListingJob]
      | cons u us =>
        have haccLen : (listingAuditPhase auditOf ⟨dbi, dnb, u :: us⟩ maxImages).acc.length
            = ((u :: us).take maxImages).length := by
          rw [show (listingAuditPhase auditOf ⟨dbi, dnb, u :: us⟩ maxImages).acc
              = (enum1 1 ((u :: us).take maxImages)).map (entryOf auditOf) by
            simpa using listingAuditPhase_acc auditOf ⟨dbi, dnb, u :: us⟩ maxImages]
          simp [enum1_length]
        obtain ⟨mA, allA, stA, genA, audA⟩ := auditLoop_c2 auditOf
          ((u :: us).take maxImages).length ((u :: us).take maxImages) 1
          (listingStartState ⟨dbi, dnb, u :: us⟩ ((u :: us).take maxImages).length) []
          (le_refl 1) rfl rfl (by simp [listingStartState])
        have audA' : (listingAuditPhase auditOf ⟨dbi, dnb, u :: us⟩
            maxImages).state.audit_progress ≤ 100 := by
          refine le_trans audA ?_
          exact prog_le_100 (by omega)
        obtain ⟨mG, allG, stG, audG, genG⟩ := genLoop_c2 genOf
          ((u :: us).take maxImages).length
          (listingAuditPhase auditOf ⟨dbi, dnb, u :: us⟩ maxImages).acc.length 1
          (listingAuditPhase auditOf ⟨dbi, dnb, u :: us⟩ maxImages).acc
          (listingAuditPhase auditOf ⟨dbi, dnb, u :: us⟩ maxImages).state
          (le_refl 1) (by rw [haccLen]; omega) stA audA'
          (by
            have h0 : ((1 : Nat) - 1) * 100 / ((u :: us).take maxImages).length = 0 := by
              simp
            rw [h0]
            exact le_of_eq genA)
        have hlinkF : progLeB
            (listingGenPhase auditOf genOf ⟨dbi, dnb, u :: us⟩ maxImages).state
            { (listingGenPhase auditOf genOf ⟨dbi, dnb, u :: us⟩ maxImages).state with
                status := .completed, current_status := "Completed",
                audit_progress := 100, generation_progress := 100 } = true := by
          simp only [progLeB, Bool.and_eq_true, decide_eq_true_eq]
          constructor
          · rw [show (listingGenPhase auditOf genOf ⟨dbi, dnb, u :: us⟩
                maxImages).state.audit_progress
              = (listingAuditPhase auditOf ⟨dbi, dnb, u :: us⟩
                maxImages).state.audit_progress from audG]
            exact audA'
          · refine le_trans genG ?_
            refine le_trans (prog_mono_num (le_refl _)) ?_
            exact prog_le_100 (by rw [haccLen]; omega)
        have hstepF : progressMonoB
            ((listingGenPhase auditOf genOf ⟨dbi, dnb, u :: us⟩ maxImages).state ::
              [{ (listingGenPhase auditOf genOf ⟨dbi, dnb, u :: us⟩ maxImages).state with
                  status := .completed, current_status := "Completed",
                  audit_progress := 100, generation_progress := 100 }]) = true := by
          rw [progressMonoB_cons₂]
          simp [hlinkF, progressMonoB_single]
        have hstep2 := progressMonoB_glue _ _ _ _ mG hstepF
        have hstep3 := progressMonoB_glue _ _ _ _ mA hstep2
        constructor
        · rw [listing_ok_states, List.append_assoc]
          rw [progressMonoB_cons₂, Bool.and_eq_true]
          constructor
          · simp [progLeB]
          · refine progressMonoB_head_weaken ?_ hstep3
            simp [progLeB, listingStartState, initialListingJob]
        · rw [listing_ok_states]
          simp only [List.all_cons, List.all_append, Bool.and_eq_true]
          refine ⟨by simp [hundredOk, initialListingJob],
            by simp [hundredOk, initialListingJob], ⟨allA, allG⟩, ?_⟩
          simp [hundredOk]
  · intro auditOnce genOnce url
    cases auditOnce with
    | error e =>
      constructor
      · show progressMonoB (processSingleImageJob (.error e) genOnce url).states = true
        simp [processSingleImageJob, auditRoomOutcome, progressMonoB, progLeB]
      · show ((processSingleImageJob (.error e) genOnce url).states.all hundredOk) = true
        simp [processSingleImageJob, auditRoomOutcome, hundredOk, initialSingleJob,
          initialListingJob]
    | ok raw =>
      have ho : auditRoomOutcome (.ok raw)
          = .ok (validateFeasibility (validateAuditResponse raw)) := rfl
      by_cases hp : (validateFeasibility (validateAuditResponse raw)).image_gen_prompt = ""
          ∨ (validateFeasibility (validateAuditResponse raw)).mask_prompt = ""
      · constructor
        · simp only [processSingleImageJob, ho, hp, if_true]
          simp [progressMonoB, progLeB, initialSingleJob, initialListingJob]
        · simp only [processSingleImageJob, ho, hp, if_true]
          simp [hundredOk, initialSingleJob, initialListingJob]
      · cases genOnce with
        | error e2 =>
          constructor
          · simp only [processSingleImageJob, ho]
            rw [if_neg hp]
            simp [progressMonoB, progLeB, initialSingleJob, initialListingJob]
          · simp only [processSingleImageJob, ho]
            rw [if_neg hp]
            simp [hundredOk, initialSingleJob, initialListingJob]
        | ok ob =>
          constructor
          · simp only [processSingleImageJob, ho]
            rw [if_neg hp]
            simp [progressMonoB, progLeB, initialSingleJob, initialListingJob]
          · simp only [processSingleImageJob, ho]
            rw [if_neg hp]
            simp [hundredOk, initialSingleJob, initialListingJob]
